import Mathlib

/-!
Verification of the tetrahedral-mesh construction and annotation module
(steps/geom/tetmesh.py).

The development shallowly embeds the module's data model and operations:

* `setTetTetNeighbours` embeds `TetMesh.__set_tet_tet_neighbours`: the
  per-tetrahedron face records, the stable lexicographic sort by face key,
  and the linear walk that pairs adjacent records with equal keys.
* `findUniqueTris` embeds `TetMesh.__find_unique_tris`, `addTris` embeds
  `TetMesh.addTris`, and `triPass` / `setTetTriCore` embed the four
  per-face-slot loops of `TetMesh.__set_tet_tri_neighbours`.
* `compInit` embeds `Comp.__init__`, `patchInitSrc` embeds
  `Patch.__init__` exactly as written (its validation compares the raw
  tetrahedron indices stored in the triangle's neighbour slots against the
  compartment objects themselves), and `patchInitSpec` is the same
  constructor with the validation modelled from the spec (the indices are
  first mapped through the per-tet compartment table).

Numbers: mesh indices are `Nat`/`Int` exactly as in the source (`-1` is
the "no neighbour" sentinel); coordinates are `ℚ`.  The geometry
primitives (`steps.geom.triangle`, `steps.geom.tetrahedron`) are not part
of this module; they are modelled from the spec where a claim needs them
(see the doc comments of `triBary`, `tetBary`, `triNormal`, `tetVol`) and
the triangle-area primitive is kept as an explicit function parameter,
since no claim depends on its values.

Normalisation notes (recorded here once; each is a spelling-level repair
of the source, not a change of logic):
* obvious name typos are read as the attribute they resolve to
  (`tmp`/`tmp1`, `_tets.range`/`_tets.shape`, `_tet_annotation`/
  `_tet_comps`, `_tri_annotation`/`_tri_patches`, `_tri_normals`/
  `_tri_norms`, `_tri_indices`/`_tris_indices`, `return utris.sort()`
  read as sort-then-return, `for ii in n` read as `for ii in xrange(n)`);
* the element-wise numpy comparison `tn[ix1,0:3] == tn[ix2,0:3]` is read
  as equality of the two face keys, and `self._tets[unr, (0,1,2)]` as
  row selection followed by column selection;
* the error taxonomy of the spec is used for the source's raised errors:
  `steps.error.ArgumentError` on a malformed argument is `invalidInput`,
  `steps.error.ArgumentError` on an ownership/compartment conflict is
  `assignmentConflict`, the `assert False` on a third triangle reverse
  link is `topologyError`, and a Python `IndexError` is `indexError`.
Semantic behaviour (branch conditions, loop and write order, overwrite
based dictionaries, which checks exist at all) is embedded exactly as
written.
-/

/-! ## Basic list machinery: stable insertion sort, update helpers -/

def insLe {α : Type} (le : α → α → Bool) (a : α) : List α → List α
  | [] => [a]
  | b :: bs => if le a b then a :: b :: bs else b :: insLe le a bs

/-- Stable ascending sort; embeds the stable `numpy.lexsort` /
`list.sort()` calls of the source (an element inserted from the left ends
up before later elements with an equal key). -/
def isort {α : Type} (le : α → α → Bool) : List α → List α
  | [] => []
  | a :: as => insLe le a (isort le as)

/-- Update of a two-argument table, used for the numpy cell writes
`table[t, s] = v`. -/
def tset (tbl : Nat → Nat → Int) (t s : Nat) (v : Int) : Nat → Nat → Int :=
  fun a k => if a = t ∧ k = s then v else tbl a k

/-- Python's `min` over a non-empty list (`pyMin [] = 0` is never used by
the embedded code paths: the emptiness check comes first). -/
def pyMin : List Int → Int
  | [] => 0
  | x :: xs => xs.foldl (fun a b => if a ≤ b then a else b) x

/-- Python's `max` over a non-empty list. -/
def pyMax : List Int → Int
  | [] => 0
  | x :: xs => xs.foldl (fun a b => if a ≤ b then b else a) x

/-! ## Geometry types and the spec-modelled external primitives -/

/-- A corner point: three rational coordinates. -/
abbrev Vec3 : Type := ℚ × ℚ × ℚ

/-- A triangle: three corner-point indices in stored (winding) order. -/
abbrev Tri3 : Type := Nat × Nat × Nat

/-- A tetrahedron: four corner-point indices. -/
abbrev Tet4 : Type := Nat × Nat × Nat × Nat

/-- A canonical face key: a sorted triple of corner-point indices. -/
abbrev Key : Type := Nat × Nat × Nat

def vadd (a b : Vec3) : Vec3 := (a.1 + b.1, a.2.1 + b.2.1, a.2.2 + b.2.2)

def vsub (a b : Vec3) : Vec3 := (a.1 - b.1, a.2.1 - b.2.1, a.2.2 - b.2.2)

def vneg (a : Vec3) : Vec3 := (-a.1, -a.2.1, -a.2.2)

def vsmul (q : ℚ) (a : Vec3) : Vec3 := (q * a.1, q * a.2.1, q * a.2.2)

def dot3 (a b : Vec3) : ℚ := a.1 * b.1 + a.2.1 * b.2.1 + a.2.2 * b.2.2

def cross3 (a b : Vec3) : Vec3 :=
  (a.2.1 * b.2.2 - a.2.2 * b.2.1,
   a.2.2 * b.1 - a.1 * b.2.2,
   a.1 * b.2.1 - a.2.1 * b.1)

def ptOf (pnts : List Vec3) (i : Nat) : Vec3 := pnts.getD i (0, 0, 0)

/-- Modelled from the spec: `barycenter(points, simplices)` for a
triangle, from the external geometry-primitives module
(`steps.geom.triangle`, not part of this module's source): the average of
the three corner points. -/
def triBary (pnts : List Vec3) (t : Tri3) : Vec3 :=
  vsmul (1 / 3) (vadd (vadd (ptOf pnts t.1) (ptOf pnts t.2.1)) (ptOf pnts t.2.2))

/-- Modelled from the spec: `barycenter(points, simplices)` for a
tetrahedron, from the external geometry-primitives module
(`steps.geom.tetrahedron`): the average of the four corner points. -/
def tetBary (pnts : List Vec3) (t : Tet4) : Vec3 :=
  vsmul (1 / 4)
    (vadd (vadd (vadd (ptOf pnts t.1) (ptOf pnts t.2.1)) (ptOf pnts t.2.2.1))
      (ptOf pnts t.2.2.2))

/-- Modelled from the spec: `normal(points, tris)` from the external
geometry-primitives module.  The spec's unit normal is this cross product
scaled by the positive factor `1 / norm`; every claim touching the normal
depends only on its direction (signs of dot products, negation on flip),
which positive scaling preserves, and `ℚ` has no square root. -/
def triNormal (pnts : List Vec3) (t : Tri3) : Vec3 :=
  cross3 (vsub (ptOf pnts t.2.1) (ptOf pnts t.1))
    (vsub (ptOf pnts t.2.2) (ptOf pnts t.1))

/-- Modelled from the spec: `vol(points, tets)` from the external
geometry-primitives module: the (non-negative) tetrahedron volume
`|det| / 6`. -/
def tetVol (pnts : List Vec3) (t : Tet4) : ℚ :=
  |dot3 (vsub (ptOf pnts t.2.1) (ptOf pnts t.1))
      (cross3 (vsub (ptOf pnts t.2.2.1) (ptOf pnts t.1))
        (vsub (ptOf pnts t.2.2.2) (ptOf pnts t.1)))| / 6

/-- Type of the external triangle-area primitive `area(points, tris)`;
kept as a parameter since no claim depends on the values it produces. -/
abbrev AreaFn : Type := List Vec3 → Tri3 → ℚ

/-! ## Face keys and canonical triangle keys -/

/-- Ascending sort of a triple (a numpy row `.sort()`). -/
def sort3 (t : Nat × Nat × Nat) : Nat × Nat × Nat :=
  let p1 := if t.1 ≤ t.2.1 then (t.1, t.2.1) else (t.2.1, t.1)
  let p2 := if p1.2 ≤ t.2.2 then (p1.2, t.2.2) else (t.2.2, p1.2)
  let p3 := if p1.1 ≤ p2.1 then (p1.1, p2.1) else (p2.1, p1.1)
  (p3.1, p3.2, p2.2)

/-- Face key of one of the four canonical faces of a tetrahedron, in the
source's order `(0,1,2) (0,1,3) (0,2,3) (1,2,3)`. -/
def faceKey (t : Tet4) (s : Nat) : Key :=
  match s with
  | 0 => sort3 (t.1, t.2.1, t.2.2.1)
  | 1 => sort3 (t.1, t.2.1, t.2.2.2)
  | 2 => sort3 (t.1, t.2.2.1, t.2.2.2)
  | _ => sort3 (t.2.1, t.2.2.1, t.2.2.2)

/-- Canonical key of a stored triangle row. -/
def canonKey (t : Tri3) : Key := sort3 t

/-- Lexicographic comparison of face keys, the sort key of
`numpy.lexsort((col2, col1, col0))`. -/
def keyLe (a b : Key) : Bool :=
  decide (a.1 < b.1 ∨ (a.1 = b.1 ∧
    (a.2.1 < b.2.1 ∨ (a.2.1 = b.2.1 ∧ a.2.2 ≤ b.2.2))))

def intLe (a b : Int) : Bool := decide (a ≤ b)

/-! ## Tet-tet neighbour resolution (`__set_tet_tet_neighbours`) -/

/-- One face record of the concatenated `tn` matrix: the sorted face key,
the owning tetrahedron index, and the face slot `0..3`. -/
structure Rec where
  key : Key
  tet : Nat
  slot : Nat
deriving DecidableEq, Repr

def cellOf (r : Rec) : Nat × Nat := (r.tet, r.slot)

def recLe (a b : Rec) : Bool := keyLe a.key b.key

/-- One per-slot block of face records (`t012`, `t013`, `t023`, `t123`),
tetrahedra in index order. -/
def recBlock (tets : List Tet4) (s : Nat) : List Rec :=
  (List.range tets.length).map
    (fun t => ⟨faceKey (tets.getD t (0, 0, 0, 0)) s, t, s⟩)

/-- The concatenated record matrix `tn` before sorting, block-major as in
`numpy.r_[t012, t013, t023, t123]`. -/
def allRecords (tets : List Tet4) : List Rec :=
  recBlock tets 0 ++ recBlock tets 1 ++ recBlock tets 2 ++ recBlock tets 3

/-- The walk over the key-sorted record list (the `while ix1 < nx` loop):
two adjacent records with an equal key are paired symmetrically; an
unpaired record marks a boundary face (`-1`).  The initial table value
`-2` stands for the uninitialised `numpy.empty` cells; the walk writes
every record's cell exactly once. -/
def walk : List Rec → (Nat → Nat → Int) → (Nat → Nat → Int)
  | [], tbl => tbl
  | [r], tbl => tset tbl r.tet r.slot (-1)
  | r1 :: r2 :: rest, tbl =>
    if r1.key = r2.key then
      walk rest
        (tset (tset tbl r1.tet r1.slot ((r2.tet : Int))) r2.tet r2.slot
          ((r1.tet : Int)))
    else
      walk (r2 :: rest) (tset tbl r1.tet r1.slot (-1))

/-- Embeds `TetMesh.__set_tet_tet_neighbours`: build the records, sort
them stably by face key, and run the pairing walk.  Note that the source
raises no error anywhere in this routine. -/
def setTetTetNeighbours (tets : List Tet4) : Nat → Nat → Int :=
  walk (isort recLe (allRecords tets)) (fun _ _ => -2)

/-- Symmetry of a face-adjacency table: a slot of `a` holding `b` is
answered by some slot of `b` holding `a`. -/
def SymT (tbl : Nat → Nat → Int) : Prop :=
  ∀ a k b : Nat, tbl a k = (b : Int) → ∃ j, j < 4 ∧ tbl b j = (a : Int)

/-! ## Error taxonomy and the mesh state -/

/-- Errors, named by the spec's taxonomy: the source raises
`steps.error.ArgumentError` both for malformed arguments (`invalidInput`)
and for ownership/compartment conflicts (`assignmentConflict`); the
`assert False` on a third triangle reverse link is `topologyError`; a
Python `IndexError` is `indexError`. -/
inductive MErr where
  | invalidInput
  | assignmentConflict
  | topologyError
  | indexError
deriving DecidableEq, Repr

/-- The `TetMesh` state: the buffers and tables the claims are about.
The bounding-box scalars (`__minx` .. `__maxz`), pure derived minima and
maxima of the point buffer touched by no claim, are elided.
`tetComps` embeds the per-tet compartment table (`_tet_comps`, written
`_tet_annotation` at its use sites) as the compartment's identifier;
`triPatches` embeds the per-triangle patch table likewise. -/
structure Mesh where
  pnts : List Vec3
  tets : List Tet4
  tetVols : List ℚ
  tetTetN : Nat → Nat → Int
  tetTriN : Nat → Nat → Int
  tetComps : Nat → Option Nat
  tris : List Tri3
  triAreas : List ℚ
  triNorms : List Vec3
  triTetN : List (Int × Int)
  triPatches : List (Option Nat)

/-! ## Triangle deduplication (`__find_unique_tris`) -/

/-- Membership test of a key in the association-list embedding of the
`etris` dictionary. -/
def keyIn (d : List (Key × Int)) (k : Key) : Bool :=
  d.any (fun kv => decide (kv.1 = k))

/-- One `etris.setdefault(key, v)` step: insert only when absent. -/
def sdAdd (d : List (Key × Int)) (k : Key) (v : Int) : List (Key × Int) :=
  if keyIn d k then d else d ++ [(k, v)]

def sdFold (d : List (Key × Int)) (ps : List (Key × Int)) : List (Key × Int) :=
  ps.foldl (fun dd p => sdAdd dd p.1 p.2) d

/-- Embeds `TetMesh.__find_unique_tris` (with `incl_mesh == True`, as
`addTris` calls it): existing mesh triangles enter the dictionary first,
marked `-1`; the batch's canonical keys are sorted and entered with their
position in the sorted order; the surviving values are the non-negative
ones, sorted ascending.  Note the returned values are positions into the
key-sorted batch, while `addTris` applies them to the arrival-order
batch. -/
def findUniqueTris (old batch : List Tri3) : List Int :=
  let okeys := isort keyLe (old.map canonKey)
  let d0 := sdFold [] (okeys.map (fun k => (k, (-1 : Int))))
  let nkeys := isort keyLe (batch.map canonKey)
  let d1 := sdFold d0 (nkeys.enum.map (fun p => (p.2, (p.1 : Int))))
  isort intLe (d1.filterMap (fun kv => if 0 ≤ kv.2 then some kv.2 else none))

/-! ## Tet-tri neighbour resolution (`__set_tet_tri_neighbours`) -/

/-- The `tri_dict` lookup from canonical key to triangle index, built by
plain dictionary assignment: a later duplicate key overwrites an earlier
one. -/
def mkTriDict (tris : List Tri3) (idcs : List Nat) : Key → Option Nat :=
  idcs.foldl
    (fun f i => fun q =>
      if q = canonKey (tris.getD i (0, 0, 0)) then some i else f q)
    (fun _ => none)

/-- The mutable state of the resolution pass: the per-tet triangle slots
and the per-triangle tetrahedron pairs. -/
structure NSt where
  tetTriN : Nat → Nat → Int
  triTetN : List (Int × Int)

/-- One dictionary hit: fill the triangle's first free neighbour slot
(reverse link), then the tetrahedron's face slot (forward link).  A
triangle with both slots occupied hits the source's `assert False`
(`topologyError`); a row index beyond the table is a Python
`IndexError`. -/
def linkStep (st : NSt) (slot teidx tridx : Nat) : Except MErr NSt :=
  if tridx < st.triTetN.length then
    let p := st.triTetN.getD tridx (-1, -1)
    if p.1 = -1 then
      .ok ⟨tset st.tetTriN teidx slot (tridx : Int),
           st.triTetN.set tridx ((teidx : Int), p.2)⟩
    else if p.2 = -1 then
      .ok ⟨tset st.tetTriN teidx slot (tridx : Int),
           st.triTetN.set tridx (p.1, (teidx : Int))⟩
    else .error .topologyError
  else .error .indexError

/-- One iteration of a per-slot loop body: the source indexes the
per-slot key array `tri012` (of length `len unr`) at the tetrahedron
index `teidx = unr[ii]` rather than at `ii`; an out-of-range position is
a Python `IndexError`. -/
def probeStep (d : Key → Option Nat) (slot : Nat)
    (unr : List Nat) (fkeys : List Key) (st : NSt) (ii : Nat) :
    Except MErr NSt :=
  let teidx := unr.getD ii 0
  if teidx < fkeys.length then
    match d (fkeys.getD teidx (0, 0, 0)) with
    | none => .ok st
    | some tridx => linkStep st slot teidx tridx
  else .error .indexError

/-- One of the four per-slot loops (`Find all (0,1,2)` etc.): collect the
tetrahedra whose slot is unresolved, their face keys for this slot, and
probe the dictionary for each. -/
def triPass (tets : List Tet4) (d : Key → Option Nat) (slot : Nat)
    (st : NSt) : Except MErr NSt :=
  let unr := (List.range tets.length).filter (fun x => st.tetTriN x slot = -1)
  let fkeys := unr.map (fun t => faceKey (tets.getD t (0, 0, 0, 0)) slot)
  (List.range unr.length).foldlM (probeStep d slot unr fkeys) st

/-- Stage after the `(0,2,3)` loop: the final `(1,2,3)` loop. -/
def coreStage3 (tets : List Tet4) (d : Key → Option Nat) (s2 : NSt) :
    Except MErr NSt :=
  triPass tets d 3 s2

/-- Stage after the `(0,1,3)` loop: the `(0,2,3)` loop, then the rest. -/
def coreStage2 (tets : List Tet4) (d : Key → Option Nat) (s1 : NSt) :
    Except MErr NSt :=
  match triPass tets d 2 s1 with
  | .error e => .error e
  | .ok s2 => coreStage3 tets d s2

/-- Stage after the `(0,1,2)` loop: the `(0,1,3)` loop, then the rest. -/
def coreStage1 (tets : List Tet4) (d : Key → Option Nat) (s0 : NSt) :
    Except MErr NSt :=
  match triPass tets d 1 s0 with
  | .error e => .error e
  | .ok s1 => coreStage2 tets d s1

/-- The four sequential per-slot loops of
`TetMesh.__set_tet_tri_neighbours`; an error in one loop aborts the
whole routine. -/
def setTetTriCore (tets : List Tet4) (d : Key → Option Nat) (st : NSt) :
    Except MErr NSt :=
  match triPass tets d 0 st with
  | .error e => .error e
  | .ok s0 => coreStage1 tets d s0

/-- Embeds `TetMesh.__set_tet_tri_neighbours(tri_idcs)` on the mesh
state. -/
def setTetTriNeighbours (m : Mesh) (idcs : List Nat) : Except MErr Mesh :=
  let d := mkTriDict m.tris idcs
  (setTetTriCore m.tets d ⟨m.tetTriN, m.triTetN⟩).map
    (fun st => { m with tetTriN := st.tetTriN, triTetN := st.triTetN })

/-! ## Triangle registration (`addTris`) -/

/-- Embeds `TetMesh.addTris`: deduplicate, return unchanged when nothing
survives, append rows / areas / normals / fresh neighbour pairs, resolve
tet-tri neighbours for the appended index range, then extend the patch
table with `None`. -/
def addTris (m : Mesh) (batch : List Tri3) (aF : AreaFn) : Except MErr Mesh :=
  let ut := findUniqueTris m.tris batch
  let picked := ut.map (fun i => batch.getD i.toNat (0, 0, 0))
  if picked.length = 0 then .ok m
  else
    let m1 : Mesh :=
      { m with
        tris := m.tris ++ picked
        triAreas := m.triAreas ++ picked.map (aF m.pnts)
        triNorms := m.triNorms ++ picked.map (triNormal m.pnts)
        triTetN := m.triTetN ++ picked.map (fun _ => ((-1 : Int), (-1 : Int))) }
    match setTetTriNeighbours m1 (List.range' m.tris.length picked.length) with
    | .error e => .error e
    | .ok m2 =>
        .ok { m2 with
              triPatches := m2.triPatches ++ picked.map (fun _ => none) }

/-- Embeds `TetMesh.__init__`: copy the buffers, compute the volumes,
initialise the triangle-slot table to `-1`, resolve tet-tet neighbours,
clear the compartment table, start with empty triangle buffers and, when
a triangle array is passed, add it via `addTris`.  The source performs no
index-range validation on `tets` (only a comment `# Check range` marks
the intent). -/
def mkMesh (pnts : List Vec3) (tets : List Tet4) (tris : Option (List Tri3))
    (aF : AreaFn) : Except MErr Mesh :=
  let m0 : Mesh :=
    { pnts := pnts
      tets := tets
      tetVols := tets.map (tetVol pnts)
      tetTetN := setTetTetNeighbours tets
      tetTriN := fun _ _ => -1
      tetComps := fun _ => none
      tris := []
      triAreas := []
      triNorms := []
      triTetN := []
      triPatches := [] }
  match tris with
  | none => .ok m0
  | some ts => addTris m0 ts aF

/-! ## Compartments (`Comp.__init__`) -/

/-- The data a successful `Comp.__init__` produces besides the mesh
mutation: the identifier and the derived volume.  The bounding-box block
(pure reads of the point buffer) is elided; no claim concerns it. -/
structure CompData where
  cid : Nat
  vol : ℚ

/-- Embeds `Comp.__init__`: deduplicate the indices into a set, check the
index range (`min < 0 or max >= ntets`; Python's `min`/`max` of an empty
set raise, hence `invalidInput`), check that no named tetrahedron already
carries a compartment, and only then derive the volume and bulk-assign
the compartment in the per-tet table.  The error value carries the mesh
state at the moment of the raise. -/
def compInit (m : Mesh) (tets : List Int) (cid : Nat) :
    Except (MErr × Mesh) (Mesh × CompData) :=
  let tl := tets.dedup
  if tl.isEmpty then .error (.invalidInput, m)
  else if pyMin tl < 0 ∨ (m.tets.length : Int) ≤ pyMax tl then
    .error (.invalidInput, m)
  else if tl.any (fun i => (m.tetComps i.toNat).isSome) then
    .error (.assignmentConflict, m)
  else
    let vol := (tl.map (fun i => m.tetVols.getD i.toNat 0)).sum
    .ok ({ m with
            tetComps := fun j =>
              if (j : Int) ∈ tl then some cid else m.tetComps j },
         ⟨cid, vol⟩)

/-! ## Patches (`Patch.__init__`) -/

/-- The data a successful `Patch.__init__` produces besides the mesh
mutation. -/
structure PatchData where
  pid : Nat
  icomp : Nat
  ocomp : Option Nat
  triIdcs : List Int
  area : ℚ

/-- A Python value appearing in the source's validation comparison
`(icmp, ocmp) == (icomp, ocomp)`: an integer read from a triangle's
tet-neighbour slot, a `Comp` object (identified by its id; distinct
compartments are distinct objects), or `None`.  Python equality between
values of different kinds is `False`. -/
inductive PyVal where
  | intv (n : Int)
  | compv (c : Nat)
  | nonev
deriving DecidableEq, Repr

def pyOfOComp (oc : Option Nat) : PyVal :=
  match oc with
  | none => PyVal.nonev
  | some c => PyVal.compv c

/-- Embeds the validation loop of `Patch.__init__` exactly as written:
the raw tetrahedron indices `icmp = _tri_tet_neighbours[ii,0]` and
`ocmp = _tri_tet_neighbours[ii,1]` are compared against the compartment
objects `icomp` and `ocomp` themselves.  Returns the flip list, or `none`
for the raise. -/
def validateSrc (m : Mesh) (ic : Nat) (oc : Option Nat) :
    List Int → Option (List Int)
  | [] => some []
  | i :: rest =>
    let p := m.triTetN.getD i.toNat (-1, -1)
    if (PyVal.intv p.1, PyVal.intv p.2) = (PyVal.compv ic, pyOfOComp oc) then
      validateSrc m ic oc rest
    else if (PyVal.intv p.1, PyVal.intv p.2) =
        (pyOfOComp oc, PyVal.compv ic) then
      (validateSrc m ic oc rest).map (fun fl => i :: fl)
    else none

/-- Modelled from the spec: the per-tet compartment lookup the source's
validation omits.  A neighbour slot holding a tetrahedron index is mapped
through the per-tet compartment table; the empty slot `-1` (no
neighbouring tetrahedron) maps to no compartment. -/
def mapSlot (m : Mesh) (v : Int) : Option Nat :=
  if v < 0 then none else m.tetComps v.toNat

/-- Modelled from the spec: the validation loop of `Patch.__init__` with
each neighbour slot mapped through the per-tet compartment table before
the comparison with `(icomp, ocomp)`; the exact / swapped / neither
branches are those of the source. -/
def validateSpec (m : Mesh) (ic : Nat) (oc : Option Nat) :
    List Int → Option (List Int)
  | [] => some []
  | i :: rest =>
    let p := m.triTetN.getD i.toNat (-1, -1)
    if (mapSlot m p.1, mapSlot m p.2) = (some ic, oc) then
      validateSpec m ic oc rest
    else if (mapSlot m p.1, mapSlot m p.2) = (oc, some ic) then
      (validateSpec m ic oc rest).map (fun fl => i :: fl)
    else none

/-- Python list indexing: a negative index counts from the end
(`tets[-1]` is the last row). -/
def pyRow (l : List Tet4) (i : Int) : Tet4 :=
  if 0 ≤ i then l.getD i.toNat (0, 0, 0, 0)
  else l.getD (l.length - i.natAbs) (0, 0, 0, 0)

/-- The orientation test value of `Patch.__init__` for triangle `i`: the
dot product of `tetBarycenter - triBarycenter` (the slot-0 neighbouring
tetrahedron, read after the slot swap) with the stored normal
(`vecs1 * vecs2).sum(axis=1)`). -/
def dotFor (m : Mesh) (i : Int) : ℚ :=
  let row := m.tris.getD i.toNat (0, 0, 0)
  let tb := triBary m.pnts row
  let t0 := (m.triTetN.getD i.toNat (-1, -1)).1
  let teb := tetBary m.pnts (pyRow m.tets t0)
  dot3 (vsub teb tb) (m.triNorms.getD i.toNat (0, 0, 0))

def swap01 (t : Tri3) : Tri3 := (t.2.1, t.1, t.2.2)

/-- The patch-table assignment
`self.container._tri_annotation[self._tri_indices] = self`. -/
def patchPat (m : Mesh) (tl : List Int) (pid : Nat) : List (Option Nat) :=
  tl.foldl (fun ps i => ps.set i.toNat (some pid)) m.triPatches

/-- The queued neighbour-slot swaps: exchange the two tetrahedron slots
of every triangle on the flip list. -/
def patchTTN (m : Mesh) (fl : List Int) : List (Int × Int) :=
  fl.foldl
    (fun ps i =>
      let p := ps.getD i.toNat (-1, -1)
      ps.set i.toNat (p.2, p.1)) m.triTetN

/-- The mesh state after annotation and neighbour-slot swaps, on which
the orientation pass computes its barycenters, normals and dot
products. -/
def patchM1 (m : Mesh) (tl : List Int) (pid : Nat) (fl : List Int) : Mesh :=
  { m with triPatches := patchPat m tl pid, triTetN := patchTTN m fl }

/-- The member triangles selected for the geometric flip: exactly those
whose dot product is negative (`(vecs1 * vecs2).sum(axis=1) < 0.0`). -/
def patchFlip (m : Mesh) (tl : List Int) (pid : Nat) (fl : List Int) :
    List Int :=
  tl.filter (fun i => decide (dotFor (patchM1 m tl pid fl) i < 0))

/-- Embeds the body of `Patch.__init__` after a passed validation: the
area sum, the patch-table assignment, the queued neighbour-slot swaps,
and the orientation pass, which flips (swaps corners 0 and 1, negates
the stored normal) exactly the triangles of `patchFlip`. -/
def patchRest (m : Mesh) (tl : List Int) (pid ic : Nat) (oc : Option Nat)
    (fl : List Int) : Mesh × PatchData :=
  let m1 := patchM1 m tl pid fl
  let flip2 := patchFlip m tl pid fl
  let tris2 := flip2.foldl
    (fun ts i => ts.set i.toNat (swap01 (ts.getD i.toNat (0, 0, 0)))) m1.tris
  let norms2 := flip2.foldl
    (fun ns i => ns.set i.toNat (vneg (ns.getD i.toNat (0, 0, 0)))) m1.triNorms
  ({ m1 with tris := tris2, triNorms := norms2 },
   ⟨pid, ic, oc, tl, (tl.map (fun i => m.triAreas.getD i.toNat 0)).sum⟩)

/-- Embeds `Patch.__init__` exactly as written: index set and range
check, ownership check, then the as-written validation (`validateSrc`),
then the mutating tail.  The error value carries the mesh state at the
moment of the raise. -/
def patchInitSrc (m : Mesh) (tris : List Int) (pid ic : Nat)
    (oc : Option Nat) : Except (MErr × Mesh) (Mesh × PatchData) :=
  let tl := tris.dedup
  if tl.isEmpty then .error (.invalidInput, m)
  else if pyMin tl < 0 ∨ (m.tris.length : Int) ≤ pyMax tl then
    .error (.invalidInput, m)
  else if tl.any (fun i => (m.triPatches.getD i.toNat none).isSome) then
    .error (.assignmentConflict, m)
  else
    match validateSrc m ic oc tl with
    | none => .error (.assignmentConflict, m)
    | some fl => .ok (patchRest m tl pid ic oc fl)

/-- The constructor of `Patch.__init__` with the validation modelled from
the spec (`validateSpec`); everything else is as written in the
source. -/
def patchInitSpec (m : Mesh) (tris : List Int) (pid ic : Nat)
    (oc : Option Nat) : Except (MErr × Mesh) (Mesh × PatchData) :=
  let tl := tris.dedup
  if tl.isEmpty then .error (.invalidInput, m)
  else if pyMin tl < 0 ∨ (m.tris.length : Int) ≤ pyMax tl then
    .error (.invalidInput, m)
  else if tl.any (fun i => (m.triPatches.getD i.toNat none).isSome) then
    .error (.assignmentConflict, m)
  else
    match validateSpec m ic oc tl with
    | none => .error (.assignmentConflict, m)
    | some fl => .ok (patchRest m tl pid ic oc fl)

/-! ## Result extractors (used to state claims without equating whole
mesh records, whose table fields are functions) -/

def isOkE {ε α : Type} (e : Except ε α) : Bool :=
  match e with
  | .ok _ => true
  | .error _ => false

def okTris (e : Except MErr Mesh) : List Tri3 :=
  match e with
  | .ok m => m.tris
  | .error _ => []

def okComps (e : Except (MErr × Mesh) (Mesh × CompData)) : Nat → Option Nat :=
  match e with
  | .ok p => p.1.tetComps
  | .error _ => fun _ => none

def okArea (e : Except (MErr × Mesh) (Mesh × PatchData)) : ℚ :=
  match e with
  | .ok p => p.2.area
  | .error _ => 0

def okAreasTable (e : Except (MErr × Mesh) (Mesh × PatchData)) : List ℚ :=
  match e with
  | .ok p => p.1.triAreas
  | .error _ => []

def okPatchMesh (e : Except (MErr × Mesh) (Mesh × PatchData)) : Mesh :=
  match e with
  | .ok p => p.1
  | .error (_, m) => m

/-! ## Occupancy counting for the tet-tri resolution claims -/

/-- Number of occupied entries of one triangle's tetrahedron-pair row
(an entry is free iff it is `-1`). -/
def occ2 (p : Int × Int) : Nat :=
  (if p.1 = -1 then 0 else 1) + (if p.2 = -1 then 0 else 1)

def occJ (j : Nat) (st : NSt) : Nat := occ2 (st.triTetN.getD j (-1, -1))

/-- Number of face probes of one per-slot loop that the dictionary maps
to triangle `j`. -/
def slotHits (tets : List Tet4) (d : Key → Option Nat) (j slot : Nat) : Nat :=
  (List.range tets.length).countP
    (fun t => decide (d (faceKey (tets.getD t (0, 0, 0, 0)) slot) = some j))

/-- Total number of tetrahedron faces the dictionary matches to triangle
`j` over the four per-slot loops. -/
def matchCount (tets : List Tet4) (d : Key → Option Nat) (j : Nat) : Nat :=
  slotHits tets d j 0 + slotHits tets d j 1 + slotHits tets d j 2 +
    slotHits tets d j 3

/-! ## Concrete scenario constants used by the claim theorems -/

/-- A concrete instance of the external area primitive, used where a
scenario has to fix one (no claim depends on the produced values). -/
def zeroArea : AreaFn := fun _ _ => 0

def emptyMesh : Mesh :=
  { pnts := []
    tets := []
    tetVols := []
    tetTetN := fun _ _ => -2
    tetTriN := fun _ _ => -1
    tetComps := fun _ => none
    tris := []
    triAreas := []
    triNorms := []
    triTetN := []
    triPatches := [] }

def okMeshD (e : Except MErr Mesh) : Mesh :=
  match e with
  | .ok m => m
  | .error _ => emptyMesh

def okCompMesh (e : Except (MErr × Mesh) (Mesh × CompData)) : Mesh :=
  match e with
  | .ok p => p.1
  | .error (_, m) => m

/-- Three tetrahedra all sharing the face `(0,1,2)`: a non-manifold
input. -/
def c2tets : List Tet4 := [(0, 1, 2, 3), (0, 1, 2, 4), (0, 1, 2, 5)]

def c2pnts : List Vec3 := List.replicate 6 ((0 : ℚ), (0 : ℚ), (0 : ℚ))

/-- The unit tetrahedron; its face `(0,1,2)` lies in the plane `z = 0`
and the fourth corner is above it. -/
def c1pnts : List Vec3 := [(0, 0, 0), (1, 0, 0), (0, 1, 0), (0, 0, 1)]

/-- Stage 1 of the orientation scenario: the mesh of the unit tetrahedron
with the boundary triangle `(0,1,2)` registered. -/
def c1mesh0 : Mesh :=
  okMeshD (mkMesh c1pnts [(0, 1, 2, 3)] (some [(0, 1, 2)]) zeroArea)

/-- Stage 2: the single compartment (id 0) owning the tetrahedron. -/
def c1mesh1 : Mesh := okCompMesh (compInit c1mesh0 [0] 0)

/-- Stage 3: the patch (id 0) on the boundary triangle, inner compartment
0, no outer compartment. -/
def c1res : Except (MErr × Mesh) (Mesh × PatchData) :=
  patchInitSpec c1mesh1 [0] 0 0 none

/-- A mesh state in which triangle 0 is a valid patch member for
`(icomp, ocomp) = (0, none)`: its neighbour slots hold tetrahedron 0 and
`-1`, and tetrahedron 0 is annotated with compartment 0. -/
def c3wmesh : Mesh :=
  { pnts := c1pnts
    tets := [(0, 1, 2, 3)]
    tetVols := [1 / 6]
    tetTetN := fun _ _ => -1
    tetTriN := fun t s => if t = 0 ∧ s = 0 then 0 else -1
    tetComps := fun j => if j = 0 then some 0 else none
    tris := [(0, 1, 2)]
    triAreas := [1 / 2]
    triNorms := [(0, 0, 1)]
    triTetN := [(0, -1)]
    triPatches := [none] }

/-- A mesh whose tetrahedron table already annotates tetrahedron 0 with
a compartment (id 9). -/
def c4wmesh : Mesh :=
  { pnts := c1pnts
    tets := [(0, 1, 2, 3), (0, 1, 3, 2)]
    tetVols := [1 / 6, 1 / 6]
    tetTetN := fun _ _ => -1
    tetTriN := fun _ _ => -1
    tetComps := fun j => if j = 0 then some 9 else none
    tris := []
    triAreas := []
    triNorms := []
    triTetN := []
    triPatches := [] }

/-- A mesh holding one registered triangle with canonical key
`(0,1,2)`. -/
def c7wmesh : Mesh :=
  { pnts := c1pnts
    tets := [(0, 1, 2, 3)]
    tetVols := [1 / 6]
    tetTetN := fun _ _ => -1
    tetTriN := fun t s => if t = 0 ∧ s = 0 then 0 else -1
    tetComps := fun _ => none
    tris := [(0, 1, 2)]
    triAreas := [1 / 2]
    triNorms := [(0, 0, 1)]
    triTetN := [(0, -1)]
    triPatches := [none] }

/-- A mesh holding two registered triangles, for the all-duplicates
frame scenario. -/
def c10wmesh : Mesh :=
  { pnts := List.replicate 6 ((0 : ℚ), (0 : ℚ), (0 : ℚ))
    tets := []
    tetVols := []
    tetTetN := fun _ _ => -2
    tetTriN := fun _ _ => -1
    tetComps := fun _ => none
    tris := [(0, 1, 2), (3, 4, 5)]
    triAreas := [0, 0]
    triNorms := [(0, 0, 0), (0, 0, 0)]
    triTetN := [(-1, -1), (-1, -1)]
    triPatches := [none, none] }

/-- A mesh holding one registered triangle, for the amended
deduplication scenario (its batch mixes one mesh duplicate and one new
triangle). -/
def c6wmesh : Mesh :=
  { pnts := List.replicate 9 ((0 : ℚ), (0 : ℚ), (0 : ℚ))
    tets := []
    tetVols := []
    tetTetN := fun _ _ => -2
    tetTriN := fun _ _ => -1
    tetComps := fun _ => none
    tris := [(0, 1, 2)]
    triAreas := [0]
    triNorms := [(0, 0, 0)]
    triTetN := [(-1, -1)]
    triPatches := [none] }

/-- The non-manifold mesh state for the third-reverse-link scenario:
three tetrahedra share face `(0,1,2)` and that face is registered as
triangle 0, not yet resolved. -/
def c8wmesh : Mesh :=
  { pnts := c2pnts
    tets := c2tets
    tetVols := [0, 0, 0]
    tetTetN := setTetTetNeighbours c2tets
    tetTriN := fun _ _ => -1
    tetComps := fun _ => none
    tris := [(0, 1, 2)]
    triAreas := [0]
    triNorms := [(0, 0, 0)]
    triTetN := [(-1, -1)]
    triPatches := [none] }

/-- A mesh state carrying two valid patch-member triangles (both with
neighbour slots `(0, -1)`, tetrahedron 0 annotated with compartment 2)
with areas 3 and 5. -/
def c9wmesh : Mesh :=
  { pnts := c1pnts
    tets := [(0, 1, 2, 3)]
    tetVols := [1 / 6]
    tetTetN := fun _ _ => -1
    tetTriN := fun _ _ => -1
    tetComps := fun j => if j = 0 then some 2 else none
    tris := [(0, 1, 2), (0, 1, 3)]
    triAreas := [3, 5]
    triNorms := [(0, 0, 1), (0, -1, 0)]
    triTetN := [(0, -1), (0, -1)]
    triPatches := [none, none] }

/-- Number of non-negative values of the dictionary: the surviving
batch positions of `__find_unique_tris`. -/
def nnvals (d : List (Key × Int)) : Nat :=
  (d.filterMap (fun kv => if 0 ≤ kv.2 then some kv.2 else none)).length

/-! ## Supporting lemmas -/

theorem insLe_perm {α : Type} (le : α → α → Bool) (a : α) (l : List α) :
    (insLe le a l).Perm (a :: l) := by
  induction l with
  | nil => simp [insLe]
  | cons b bs ih =>
    simp only [insLe]
    by_cases h : le a b = true
    · simp [h]
    · simp only [h]
      exact (List.Perm.cons b ih).trans (List.Perm.swap a b bs)

theorem isort_perm {α : Type} (le : α → α → Bool) (l : List α) :
    (isort le l).Perm l := by
  induction l with
  | nil => simp [isort]
  | cons a as ih =>
    exact (insLe_perm le a (isort le as)).trans (List.Perm.cons a ih)

theorem isort_mem {α : Type} (le : α → α → Bool) (l : List α) (a : α) :
    a ∈ isort le l ↔ a ∈ l :=
  (isort_perm le l).mem_iff

theorem tset_self (tbl : Nat → Nat → Int) (t s : Nat) (v : Int) :
    tset tbl t s v t s = v := by
  simp [tset]

theorem tset_ne (tbl : Nat → Nat → Int) (t s : Nat) (v : Int) (a k : Nat)
    (h : ¬(a = t ∧ k = s)) : tset tbl t s v a k = tbl a k := by
  simp only [tset, if_neg h]

theorem getD_set_self {α : Type} (l : List α) (i : Nat) (a d : α)
    (h : i < l.length) : (l.set i a).getD i d = a := by
  induction l generalizing i with
  | nil => simp at h
  | cons x xs ih =>
    cases i with
    | zero => simp [List.set, List.getD]
    | succ n =>
      simp only [List.set, List.getD_cons_succ]
      exact ih n (by simpa using h)

theorem getD_set_ne {α : Type} (l : List α) (i j : Nat) (a d : α)
    (h : i ≠ j) : (l.set i a).getD j d = l.getD j d := by
  induction l generalizing i j with
  | nil => simp [List.set]
  | cons x xs ih =>
    cases i with
    | zero =>
      cases j with
      | zero => exact absurd rfl h
      | succ m => simp [List.set]
    | succ n =>
      cases j with
      | zero => simp [List.set]
      | succ m =>
        simp only [List.set, List.getD_cons_succ]
        exact ih n m (fun hh => h (by rw [hh]))

theorem foldl_min_ge (xs : List Int) (x c : Int) (hx : c ≤ x)
    (hxs : ∀ i ∈ xs, c ≤ i) :
    c ≤ xs.foldl (fun a b => if a ≤ b then a else b) x := by
  induction xs generalizing x with
  | nil => simpa using hx
  | cons y ys ih =>
    simp only [List.foldl_cons]
    by_cases h : x ≤ y
    · simp only [if_pos h]
      exact ih x hx (fun i hi => hxs i (List.mem_cons_of_mem y hi))
    · simp only [if_neg h]
      exact ih y (hxs y (List.mem_cons_self y ys))
        (fun i hi => hxs i (List.mem_cons_of_mem y hi))

theorem pyMin_nonneg (l : List Int) (h : ∀ i ∈ l, 0 ≤ i) : 0 ≤ pyMin l := by
  cases l with
  | nil => simp [pyMin]
  | cons x xs =>
    exact foldl_min_ge xs x 0 (h x (List.mem_cons_self x xs))
      (fun i hi => h i (List.mem_cons_of_mem x hi))

theorem foldl_max_lt (xs : List Int) (x c : Int) (hx : x < c)
    (hxs : ∀ i ∈ xs, i < c) :
    xs.foldl (fun a b => if a ≤ b then b else a) x < c := by
  induction xs generalizing x with
  | nil => simpa using hx
  | cons y ys ih =>
    simp only [List.foldl_cons]
    by_cases h : x ≤ y
    · simp only [if_pos h]
      exact ih y (hxs y (List.mem_cons_self y ys))
        (fun i hi => hxs i (List.mem_cons_of_mem y hi))
    · simp only [if_neg h]
      exact ih x hx (fun i hi => hxs i (List.mem_cons_of_mem y hi))

theorem pyMax_lt (l : List Int) (c : Int) (hc : 0 < c)
    (h : ∀ i ∈ l, i < c) : pyMax l < c := by
  cases l with
  | nil => simpa [pyMax] using hc
  | cons x xs =>
    exact foldl_max_lt xs x c (h x (List.mem_cons_self x xs))
      (fun i hi => h i (List.mem_cons_of_mem x hi))

theorem foldl_min_mem_le (xs : List Int) (x : Int) :
    xs.foldl (fun a b => if a ≤ b then a else b) x ≤ x := by
  induction xs generalizing x with
  | nil => simp
  | cons y ys ih =>
    simp only [List.foldl_cons]
    by_cases h : x ≤ y
    · simpa [h] using ih x
    · exact le_trans (by simpa [h] using ih y) (le_of_not_le h)

theorem foldl_min_le_mem (xs : List Int) (x i : Int) (hi : i ∈ xs) :
    xs.foldl (fun a b => if a ≤ b then a else b) x ≤ i := by
  induction xs generalizing x with
  | nil => simp at hi
  | cons y ys ih =>
    simp only [List.foldl_cons]
    rcases List.mem_cons.mp hi with h | h
    · subst h
      by_cases hxy : x ≤ i
      · simp only [if_pos hxy]
        exact le_trans (foldl_min_mem_le ys x) hxy
      · simp only [if_neg hxy]
        exact foldl_min_mem_le ys i
    · by_cases hxy : x ≤ y
      · simp only [if_pos hxy]
        exact ih x h
      · simp only [if_neg hxy]
        exact ih y h

theorem pyMin_le_mem (l : List Int) (i : Int) (hi : i ∈ l) : pyMin l ≤ i := by
  cases l with
  | nil => simp at hi
  | cons x xs =>
    rcases List.mem_cons.mp hi with h | h
    · subst h
      exact foldl_min_mem_le xs i
    · exact foldl_min_le_mem xs x i h

theorem foldl_max_mem_ge (xs : List Int) (x : Int) :
    x ≤ xs.foldl (fun a b => if a ≤ b then b else a) x := by
  induction xs generalizing x with
  | nil => simp
  | cons y ys ih =>
    simp only [List.foldl_cons]
    by_cases h : x ≤ y
    · simp only [if_pos h]
      exact le_trans h (ih y)
    · simp only [if_neg h]
      exact ih x

theorem foldl_max_ge_mem (xs : List Int) (x i : Int) (hi : i ∈ xs) :
    i ≤ xs.foldl (fun a b => if a ≤ b then b else a) x := by
  induction xs generalizing x with
  | nil => simp at hi
  | cons y ys ih =>
    simp only [List.foldl_cons]
    rcases List.mem_cons.mp hi with h | h
    · subst h
      by_cases hxy : x ≤ i
      · simp only [if_pos hxy]
        exact foldl_max_mem_ge ys i
      · simp only [if_neg hxy]
        exact le_trans (le_of_not_le hxy) (foldl_max_mem_ge ys x)
    · by_cases hxy : x ≤ y
      · simp only [if_pos hxy]
        exact ih y h
      · simp only [if_neg hxy]
        exact ih x h

theorem pyMax_ge_mem (l : List Int) (i : Int) (hi : i ∈ l) : i ≤ pyMax l := by
  cases l with
  | nil => simp at hi
  | cons x xs =>
    rcases List.mem_cons.mp hi with h | h
    · subst h
      exact foldl_max_mem_ge xs i
    · exact foldl_max_ge_mem xs x i h

theorem symT_tset_boundary (tbl : Nat → Nat → Int) (t s : Nat)
    (hfresh : tbl t s = -2) (hsym : SymT tbl) :
    SymT (tset tbl t s (-1)) := by
  intro a k b hb
  by_cases hak : a = t ∧ k = s
  · rw [hak.1, hak.2, tset_self] at hb
    omega
  · rw [tset_ne tbl t s (-1) a k hak] at hb
    obtain ⟨j, hj4, hj⟩ := hsym a k b hb
    refine ⟨j, hj4, ?_⟩
    by_cases hbj : b = t ∧ j = s
    · rw [hbj.1, hbj.2] at hj
      rw [hfresh] at hj
      omega
    · rw [tset_ne tbl t s (-1) b j hbj]
      exact hj

theorem symT_tset_pair (tbl : Nat → Nat → Int) (t1 s1 t2 s2 : Nat)
    (hne : (t1, s1) ≠ (t2, s2)) (hs1 : s1 < 4) (hs2 : s2 < 4)
    (hf1 : tbl t1 s1 = -2) (hf2 : tbl t2 s2 = -2) (hsym : SymT tbl) :
    SymT (tset (tset tbl t1 s1 ((t2 : Int))) t2 s2 ((t1 : Int))) := by
  intro a k b hb
  by_cases hak2 : a = t2 ∧ k = s2
  · rw [hak2.1, hak2.2, tset_self] at hb
    have hb1 : b = t1 := by omega
    refine ⟨s1, hs1, ?_⟩
    have hcell : ¬(t1 = t2 ∧ s1 = s2) := by
      intro hh
      exact hne (by rw [hh.1, hh.2])
    rw [hb1, tset_ne _ t2 s2 _ t1 s1 hcell, tset_self, hak2.1]
  · rw [tset_ne _ t2 s2 _ a k hak2] at hb
    by_cases hak1 : a = t1 ∧ k = s1
    · rw [hak1.1, hak1.2, tset_self] at hb
      have hb2 : b = t2 := by omega
      refine ⟨s2, hs2, ?_⟩
      rw [hb2, tset_self, hak1.1]
    · rw [tset_ne _ t1 s1 _ a k hak1] at hb
      obtain ⟨j, hj4, hj⟩ := hsym a k b hb
      refine ⟨j, hj4, ?_⟩
      by_cases hbj2 : b = t2 ∧ j = s2
      · rw [hbj2.1, hbj2.2] at hj
        rw [hf2] at hj
        omega
      · by_cases hbj1 : b = t1 ∧ j = s1
        · rw [hbj1.1, hbj1.2] at hj
          rw [hf1] at hj
          omega
        · rw [tset_ne _ t2 s2 _ b j hbj2, tset_ne _ t1 s1 _ b j hbj1]
          exact hj

theorem walk_sym (rs : List Rec) (tbl : Nat → Nat → Int) :
    (rs.map cellOf).Nodup → (∀ r ∈ rs, r.slot < 4) →
    (∀ r ∈ rs, tbl r.tet r.slot = -2) → SymT tbl → SymT (walk rs tbl) := by
  induction rs, tbl using walk.induct with
  | case1 tbl =>
    intro _ _ _ hsym
    simpa [walk] using hsym
  | case2 r tbl =>
    intro _ hslot hfresh hsym
    simp only [walk]
    exact symT_tset_boundary tbl r.tet r.slot
      (hfresh r (List.mem_cons_self r [])) hsym
  | case3 r1 r2 rest tbl hkey ih =>
    intro hnodup hslot hfresh hsym
    simp only [walk, if_pos hkey]
    have hmem1 : r1 ∈ r1 :: r2 :: rest := List.mem_cons_self _ _
    have hmem2 : r2 ∈ r1 :: r2 :: rest :=
      List.mem_cons_of_mem r1 (List.mem_cons_self _ _)
    have hcellne : (r1.tet, r1.slot) ≠ (r2.tet, r2.slot) := by
      have h12 := hnodup
      simp only [List.map_cons, List.nodup_cons, List.mem_cons] at h12
      intro hh
      exact h12.1 (Or.inl (by simpa [cellOf] using hh))
    have hsym2 := symT_tset_pair tbl r1.tet r1.slot r2.tet r2.slot hcellne
      (hslot r1 hmem1) (hslot r2 hmem2) (hfresh r1 hmem1) (hfresh r2 hmem2)
      hsym
    refine ih ?_ ?_ ?_ hsym2
    · have := hnodup
      simp only [List.map_cons, List.nodup_cons] at this
      exact this.2.2
    · intro r hr
      exact hslot r (List.mem_cons_of_mem r1 (List.mem_cons_of_mem r2 hr))
    · intro r hr
      have hner1 : ¬(r.tet = r1.tet ∧ r.slot = r1.slot) := by
        have hn := hnodup
        simp only [List.map_cons, List.nodup_cons, List.mem_cons] at hn
        intro hh
        have hceq : cellOf r = cellOf r1 := by simp [cellOf, hh.1, hh.2]
        exact hn.1 (Or.inr (by
          rw [← hceq]
          exact List.mem_map_of_mem cellOf hr))
      have hner2 : ¬(r.tet = r2.tet ∧ r.slot = r2.slot) := by
        have hn := hnodup
        simp only [List.map_cons, List.nodup_cons, List.mem_cons] at hn
        intro hh
        have hceq : cellOf r = cellOf r2 := by simp [cellOf, hh.1, hh.2]
        exact hn.2.1 (by
          rw [← hceq]
          exact List.mem_map_of_mem cellOf hr)
      rw [tset_ne _ r2.tet r2.slot _ r.tet r.slot hner2,
        tset_ne _ r1.tet r1.slot _ r.tet r.slot hner1]
      exact hfresh r
        (List.mem_cons_of_mem r1 (List.mem_cons_of_mem r2 hr))
  | case4 r1 r2 rest tbl hkey ih =>
    intro hnodup hslot hfresh hsym
    simp only [walk, if_neg hkey]
    have hmem1 : r1 ∈ r1 :: r2 :: rest := List.mem_cons_self _ _
    have hsym2 := symT_tset_boundary tbl r1.tet r1.slot (hfresh r1 hmem1) hsym
    refine ih ?_ ?_ ?_ hsym2
    · have := hnodup
      simp only [List.map_cons, List.nodup_cons] at this ⊢
      refine ⟨this.2.1, this.2.2⟩
    · intro r hr
      exact hslot r (List.mem_cons_of_mem r1 hr)
    · intro r hr
      have hner1 : ¬(r.tet = r1.tet ∧ r.slot = r1.slot) := by
        have hn := hnodup
        simp only [List.map_cons, List.nodup_cons, List.mem_cons] at hn
        intro hh
        have hceq : cellOf r = cellOf r1 := by simp [cellOf, hh.1, hh.2]
        rcases List.mem_cons.mp hr with h2 | h2
        · exact hn.1 (Or.inl (by rw [← hceq, h2]))
        · exact hn.1 (Or.inr (by
            rw [← hceq]
            exact List.mem_map_of_mem cellOf h2))
      rw [tset_ne _ r1.tet r1.slot _ r.tet r.slot hner1]
      exact hfresh r (List.mem_cons_of_mem r1 hr)

theorem recBlock_cells (tets : List Tet4) (s : Nat) :
    (recBlock tets s).map cellOf =
      (List.range tets.length).map (fun t => (t, s)) := by
  simp [recBlock, List.map_map, cellOf, Function.comp]

theorem allRecords_cells_nodup (tets : List Tet4) :
    ((allRecords tets).map cellOf).Nodup := by
  have hb : ∀ s : Nat, ((recBlock tets s).map cellOf).Nodup := by
    intro s
    rw [recBlock_cells]
    exact (List.nodup_range tets.length).map (fun a b hab => by
      simpa using congrArg Prod.fst hab)
  have hmem : ∀ s : Nat, ∀ c ∈ (recBlock tets s).map cellOf, c.2 = s := by
    intro s c hc
    rw [recBlock_cells] at hc
    obtain ⟨t, _, ht⟩ := List.mem_map.mp hc
    rw [← ht]
  have hdisj : ∀ s1 s2 : Nat, s1 ≠ s2 →
      List.Disjoint ((recBlock tets s1).map cellOf)
        ((recBlock tets s2).map cellOf) := by
    intro s1 s2 hne c hc1 hc2
    exact hne ((hmem s1 c hc1).symm.trans (hmem s2 c hc2))
  simp only [allRecords, List.map_append]
  have n01 : ((recBlock tets 0).map cellOf ++ (recBlock tets 1).map cellOf).Nodup :=
    List.Nodup.append (hb 0) (hb 1) (hdisj 0 1 (by decide))
  have n012 : (((recBlock tets 0).map cellOf ++ (recBlock tets 1).map cellOf) ++
      (recBlock tets 2).map cellOf).Nodup := by
    refine List.Nodup.append n01 (hb 2) ?_
    intro c hc1 hc2
    rcases List.mem_append.mp hc1 with h | h
    · exact hdisj 0 2 (by decide) h hc2
    · exact hdisj 1 2 (by decide) h hc2
  refine List.Nodup.append n012 (hb 3) ?_
  intro c hc1 hc2
  rcases List.mem_append.mp hc1 with h | h
  · rcases List.mem_append.mp h with h2 | h2
    · exact hdisj 0 3 (by decide) h2 hc2
    · exact hdisj 1 3 (by decide) h2 hc2
  · exact hdisj 2 3 (by decide) h hc2

theorem allRecords_slot_lt (tets : List Tet4) (r : Rec)
    (hr : r ∈ allRecords tets) : r.slot < 4 := by
  have hblk : ∀ s : Nat, s < 4 → ∀ x ∈ recBlock tets s, Rec.slot x < 4 := by
    intro s hs x hx
    obtain ⟨t, _, ht⟩ := List.mem_map.mp hx
    rw [← ht]
    exact hs
  simp only [allRecords, List.mem_append] at hr
  rcases hr with ((h | h) | h) | h
  · exact hblk 0 (by decide) r h
  · exact hblk 1 (by decide) r h
  · exact hblk 2 (by decide) r h
  · exact hblk 3 (by decide) r h

theorem setTetTet_sym (tets : List Tet4) : SymT (setTetTetNeighbours tets) := by
  unfold setTetTetNeighbours
  apply walk_sym
  · have hperm : ((isort recLe (allRecords tets)).map cellOf).Perm
        ((allRecords tets).map cellOf) :=
      (isort_perm recLe (allRecords tets)).map cellOf
    exact hperm.nodup_iff.mpr (allRecords_cells_nodup tets)
  · intro r hr
    exact allRecords_slot_lt tets r ((isort_mem recLe (allRecords tets) r).mp hr)
  · intro r _
    rfl
  · intro a k b hb
    have hb2 : (-2 : Int) = (b : Int) := hb
    omega

/-- Claim C5: after tet-tet neighbour resolution, face adjacency is
symmetric: if one of tetrahedron `a`'s face slots holds tetrahedron `b`'s
index, then some face slot of `b` holds `a`'s index. -/
theorem c5_tet_adjacency_symmetric (tets : List Tet4) (a k b : Nat)
    (h : setTetTetNeighbours tets a k = (b : Int)) :
    ∃ j, j < 4 ∧ setTetTetNeighbours tets b j = (a : Int) :=
  setTetTet_sym tets a k b h

theorem c5_tet_adjacency_symmetric_witness :
    setTetTetNeighbours [(0, 1, 2, 3), (0, 1, 2, 4)] 0 0 = ((1 : Nat) : Int) ∧
    ∃ j, j < 4 ∧
      setTetTetNeighbours [(0, 1, 2, 3), (0, 1, 2, 4)] 1 j = ((0 : Nat) : Int) :=
  ⟨by decide,
   c5_tet_adjacency_symmetric [(0, 1, 2, 3), (0, 1, 2, 4)] 0 0 1 (by decide)⟩

/-- Claim C2, counterexample: the face key `(0,1,2)` occurs in all three
tetrahedra of `c2tets` (three of the twelve face records carry it), yet
`TetMesh` construction completes without raising any error: the source's
`__set_tet_tet_neighbours` contains no raise at all. -/
theorem c2_nonmanifold_counterexample :
    ((allRecords c2tets).countP (fun r => decide (r.key = (0, 1, 2)))) = 3 ∧
    isOkE (mkMesh c2pnts c2tets none zeroArea) = true := by
  constructor
  · decide
  · decide

/-- Claim C2, amended: on a mesh whose face key `(0,1,2)` is shared by
three tetrahedra, construction raises nothing; the walk pairs the first
two records of the shared key (tetrahedra 0 and 1 become mutual
neighbours through their slot 0) and marks the third occurrence as a
boundary face (`-1`); every other slot is a boundary face. -/
theorem c2_nonmanifold_greedy_pairing :
    setTetTetNeighbours c2tets 0 0 = 1 ∧
    setTetTetNeighbours c2tets 1 0 = 0 ∧
    setTetTetNeighbours c2tets 2 0 = -1 ∧
    setTetTetNeighbours c2tets 0 1 = -1 ∧
    setTetTetNeighbours c2tets 0 2 = -1 ∧
    setTetTetNeighbours c2tets 0 3 = -1 ∧
    setTetTetNeighbours c2tets 1 1 = -1 ∧
    setTetTetNeighbours c2tets 1 2 = -1 ∧
    setTetTetNeighbours c2tets 1 3 = -1 ∧
    setTetTetNeighbours c2tets 2 1 = -1 ∧
    setTetTetNeighbours c2tets 2 2 = -1 ∧
    setTetTetNeighbours c2tets 2 3 = -1 := by
  decide

/-- Claim C4: compartment creation is all-or-nothing.  If any named
tetrahedron already carries a compartment, `Comp.__init__` raises
`assignmentConflict` with the mesh exactly as it was (the ownership loop
runs before any mutation, so the error state is the input state and no
compartment is produced).  Otherwise the call succeeds, every member
tetrahedron's entry is set to the new compartment, and every other entry
is untouched. -/
theorem c4_comp_creation_atomic (m : Mesh) (ts : List Int) (cid : Nat)
    (hne : ts ≠ []) (hr : ∀ i ∈ ts, 0 ≤ i ∧ i < (m.tets.length : Int)) :
    ((∃ i ∈ ts.dedup, m.tetComps i.toNat ≠ none) →
      compInit m ts cid = .error (.assignmentConflict, m)) ∧
    ((∀ i ∈ ts.dedup, m.tetComps i.toNat = none) →
      isOkE (compInit m ts cid) = true ∧
      (∀ i ∈ ts.dedup, okComps (compInit m ts cid) i.toNat = some cid) ∧
      (∀ j : Nat, ((j : Int) ∉ ts.dedup) →
        okComps (compInit m ts cid) j = m.tetComps j)) := by
  have hdne : ts.dedup ≠ [] := fun hh => hne ((List.dedup_eq_nil ts).mp hh)
  have h1 : (ts.dedup).isEmpty = false := by
    cases hdd : ts.dedup with
    | nil => exact absurd hdd hdne
    | cons a l => rfl
  have hmem : ∀ i ∈ ts.dedup, 0 ≤ i ∧ i < (m.tets.length : Int) :=
    fun i hi => hr i (List.mem_dedup.mp hi)
  have hmin : 0 ≤ pyMin ts.dedup :=
    pyMin_nonneg _ (fun i hi => (hmem i hi).1)
  have hlenpos : 0 < (m.tets.length : Int) := by
    obtain ⟨x, hx⟩ := List.exists_mem_of_ne_nil ts.dedup hdne
    have := hmem x hx
    omega
  have hmax : pyMax ts.dedup < (m.tets.length : Int) :=
    pyMax_lt _ _ hlenpos (fun i hi => (hmem i hi).2)
  have h2 : ¬(pyMin ts.dedup < 0 ∨ (m.tets.length : Int) ≤ pyMax ts.dedup) := by
    intro hh
    rcases hh with hh | hh
    · omega
    · omega
  constructor
  · intro ⟨i, hi, hann⟩
    have h3 : (ts.dedup).any (fun i => (m.tetComps i.toNat).isSome) = true := by
      refine List.any_eq_true.mpr ⟨i, hi, ?_⟩
      simpa [Option.isSome_iff_ne_none] using hann
    simp only [compInit, h1, h2, h3]
    simp
  · intro hall
    have h3 : (ts.dedup).any (fun i => (m.tetComps i.toNat).isSome) = false := by
      rw [List.any_eq_false]
      intro i hi
      simp [hall i hi]
    refine ⟨?_, ?_, ?_⟩
    · simp only [compInit, h1, h2, h3]
      simp [isOkE]
    · intro i hi
      have hico : ((i.toNat : Int)) = i := Int.toNat_of_nonneg (hmem i hi).1
      simp only [compInit, h1, h2, h3]
      simp only [Bool.false_eq_true, if_false, if_neg h2, isOkE, okComps]
      rw [if_pos]
      rw [hico]
      exact hi
    · intro j hj
      simp only [compInit, h1, h2, h3]
      simp only [Bool.false_eq_true, if_false, if_neg h2, isOkE, okComps]
      rw [if_neg hj]

theorem c4_comp_creation_atomic_witness :
    compInit c4wmesh [0] 5 = .error (.assignmentConflict, c4wmesh) ∧
    (isOkE (compInit c4wmesh [1] 5) = true ∧
      okComps (compInit c4wmesh [1] 5) 1 = some 5 ∧
      okComps (compInit c4wmesh [1] 5) 0 = c4wmesh.tetComps 0) :=
  ⟨(c4_comp_creation_atomic c4wmesh [0] 5 (by decide) (by decide)).1
      ⟨0, by decide, by decide⟩,
   (fun hs => ⟨hs.1, hs.2.1 1 (by decide), hs.2.2 0 (by decide)⟩)
     ((c4_comp_creation_atomic c4wmesh [1] 5 (by decide) (by decide)).2
       (by decide))⟩

theorem patchSpec_ok_shape (m : Mesh) (ts : List Int) (pid ic : Nat)
    (oc : Option Nat) (h : isOkE (patchInitSpec m ts pid ic oc) = true) :
    ∃ fl, validateSpec m ic oc ts.dedup = some fl ∧
      ¬(ts.dedup.isEmpty = true) ∧
      ¬(pyMin ts.dedup < 0 ∨ ((m.tris.length : Int) ≤ pyMax ts.dedup)) ∧
      patchInitSpec m ts pid ic oc = .ok (patchRest m ts.dedup pid ic oc fl) := by
  simp only [patchInitSpec] at h ⊢
  split at h
  · simp [isOkE] at h
  · split at h
    · simp [isOkE] at h
    · split at h
      · simp [isOkE] at h
      · rename_i hc1 hc2 hc3
        split at h
        · simp [isOkE] at h
        · rename_i fl hv
          exact ⟨fl, hv, hc1, hc2, by rw [if_neg hc1, if_neg hc2, if_neg hc3]⟩

/-- Claim C9: after a successful patch construction, the stored area is
the sum of the member triangles' stored per-triangle areas, and the
per-triangle area table itself is untouched by the construction. -/
theorem c9_patch_area_additive (m : Mesh) (ts : List Int) (pid ic : Nat)
    (oc : Option Nat) (h : isOkE (patchInitSpec m ts pid ic oc) = true) :
    okArea (patchInitSpec m ts pid ic oc) =
      ((ts.dedup).map (fun i => m.triAreas.getD i.toNat 0)).sum ∧
    okAreasTable (patchInitSpec m ts pid ic oc) = m.triAreas := by
  obtain ⟨fl, _, _, _, hok⟩ := patchSpec_ok_shape m ts pid ic oc h
  rw [hok]
  constructor
  · simp [okArea, patchRest]
  · simp [okAreasTable, patchRest, patchM1]

theorem c9_patch_area_additive_witness :
    isOkE (patchInitSpec c9wmesh [0, 1] 7 2 none) = true ∧
    okArea (patchInitSpec c9wmesh [0, 1] 7 2 none) =
      ((([0, 1] : List Int).dedup).map
        (fun i => c9wmesh.triAreas.getD i.toNat 0)).sum :=
  ⟨by decide, (c9_patch_area_additive c9wmesh [0, 1] 7 2 none (by decide)).1⟩

/-- Claim C3: the source's validation never maps the neighbour slots
through the per-tet compartment table; it compares the raw tetrahedron
indices with the compartment objects, so even a triangle whose mapped
pair is exactly `(innerComp, outerComp)` raises the conflict error.  On
`c3wmesh`, triangle 0's mapped pair is exactly `(some 0, none)`, the
as-written constructor raises `assignmentConflict` with nothing mutated,
and the spec-modelled validation accepts the same input. -/
theorem c3_validation_compares_indices_to_comps :
    patchInitSrc c3wmesh [0] 5 0 none = .error (.assignmentConflict, c3wmesh) ∧
    (mapSlot c3wmesh ((c3wmesh.triTetN.getD 0 (-1, -1)).1),
      mapSlot c3wmesh ((c3wmesh.triTetN.getD 0 (-1, -1)).2)) =
      (some 0, none) ∧
    isOkE (patchInitSpec c3wmesh [0] 5 0 none) = true := by
  refine ⟨?_, by decide, by decide⟩
  rfl

theorem triBary_swap01 (p : List Vec3) (t : Tri3) :
    triBary p (swap01 t) = triBary p t := by
  simp only [triBary, swap01, vadd, vsmul, Prod.mk.injEq]
  refine ⟨by ring, by ring, by ring⟩

theorem dot3_vneg (a b : Vec3) : dot3 a (vneg b) = -(dot3 a b) := by
  simp only [dot3, vneg]
  ring

theorem foldl_set_getD {α : Type} (g : α → α) (d : α) :
    ∀ (fl : List Int) (l0 : List α),
      fl.Nodup → (∀ x ∈ fl, 0 ≤ x) → (∀ x ∈ fl, x.toNat < l0.length) →
      ∀ i : Int, 0 ≤ i →
        (fl.foldl (fun ls x => ls.set x.toNat (g (ls.getD x.toNat d)))
            l0).getD i.toNat d =
          if i ∈ fl then g (l0.getD i.toNat d) else l0.getD i.toNat d := by
  intro fl
  induction fl with
  | nil =>
    intro l0 _ _ _ i _
    simp
  | cons x xs ih =>
    intro l0 hnd hpos hrange i hi
    simp only [List.foldl_cons]
    have hxl : x.toNat < l0.length := hrange x (List.mem_cons_self x xs)
    have hnd' : xs.Nodup := (List.nodup_cons.mp hnd).2
    have hxnot : x ∉ xs := (List.nodup_cons.mp hnd).1
    have hpos' : ∀ y ∈ xs, 0 ≤ y :=
      fun y hy => hpos y (List.mem_cons_of_mem x hy)
    have hrange' : ∀ y ∈ xs,
        y.toNat < (l0.set x.toNat (g (l0.getD x.toNat d))).length := by
      intro y hy
      rw [List.length_set]
      exact hrange y (List.mem_cons_of_mem x hy)
    by_cases hix : i = x
    · subst hix
      rw [ih _ hnd' hpos' hrange' i hi]
      rw [if_neg hxnot, if_pos (List.mem_cons_self i xs)]
      exact getD_set_self l0 i.toNat _ d hxl
    · have htne : x.toNat ≠ i.toNat := by
        intro hh
        apply hix
        have h1 : ((x.toNat : Nat) : Int) = x :=
          Int.toNat_of_nonneg (hpos x (List.mem_cons_self x xs))
        have h2 : ((i.toNat : Nat) : Int) = i := Int.toNat_of_nonneg hi
        omega
      rw [ih _ hnd' hpos' hrange' i hi]
      rw [getD_set_ne l0 x.toNat i.toNat _ d htne]
      simp [List.mem_cons, hix]

theorem patchSpec_dot_nonneg (m : Mesh) (ts : List Int) (pid ic : Nat)
    (oc : Option Nat) (hnorm : m.triNorms.length = m.tris.length)
    (h : isOkE (patchInitSpec m ts pid ic oc) = true)
    (i : Int) (hi : i ∈ ts.dedup) :
    0 ≤ dotFor (okPatchMesh (patchInitSpec m ts pid ic oc)) i := by
  obtain ⟨fl, hv, hc1, hc2, hok⟩ := patchSpec_ok_shape m ts pid ic oc h
  rw [hok]
  have hrange0 : ∀ x ∈ ts.dedup, 0 ≤ x ∧ x < (m.tris.length : Int) := by
    intro x hx
    rcases not_or.mp hc2 with ⟨hmn, hmx⟩
    constructor
    · have := pyMin_le_mem ts.dedup x hx
      omega
    · have := pyMax_ge_mem ts.dedup x hx
      omega
  have hfsub : ∀ x ∈ patchFlip m ts.dedup pid fl, x ∈ ts.dedup := by
    intro x hx
    exact (List.mem_filter.mp hx).1
  have hfnodup : (patchFlip m ts.dedup pid fl).Nodup :=
    (List.nodup_dedup ts).filter _
  have hfpos : ∀ x ∈ patchFlip m ts.dedup pid fl, 0 ≤ x :=
    fun x hx => (hrange0 x (hfsub x hx)).1
  have hftris : ∀ x ∈ patchFlip m ts.dedup pid fl, x.toNat < m.tris.length := by
    intro x hx
    have := hrange0 x (hfsub x hx)
    omega
  have hfnorms : ∀ x ∈ patchFlip m ts.dedup pid fl,
      x.toNat < m.triNorms.length := by
    rw [hnorm]
    exact hftris
  have hi0 : 0 ≤ i := (hrange0 i hi).1
  have htris : ((patchRest m ts.dedup pid ic oc fl).1).tris.getD i.toNat
        (0, 0, 0) =
      if i ∈ patchFlip m ts.dedup pid fl then
        swap01 (m.tris.getD i.toNat (0, 0, 0))
      else m.tris.getD i.toNat (0, 0, 0) := by
    have := foldl_set_getD swap01 ((0, 0, 0) : Tri3)
      (patchFlip m ts.dedup pid fl) m.tris hfnodup hfpos hftris i hi0
    simpa [patchRest, patchM1] using this
  have hnorms : ((patchRest m ts.dedup pid ic oc fl).1).triNorms.getD i.toNat
        (0, 0, 0) =
      if i ∈ patchFlip m ts.dedup pid fl then
        vneg (m.triNorms.getD i.toNat (0, 0, 0))
      else m.triNorms.getD i.toNat (0, 0, 0) := by
    have := foldl_set_getD vneg ((0, 0, 0) : Vec3)
      (patchFlip m ts.dedup pid fl) m.triNorms hfnodup hfpos hfnorms i hi0
    simpa [patchRest, patchM1] using this
  have hd1 : dotFor (okPatchMesh
        (Except.ok (patchRest m ts.dedup pid ic oc fl))) i =
      if i ∈ patchFlip m ts.dedup pid fl then
        -(dotFor (patchM1 m ts.dedup pid fl) i)
      else dotFor (patchM1 m ts.dedup pid fl) i := by
    by_cases hif : i ∈ patchFlip m ts.dedup pid fl
    · rw [if_pos hif]
      simp only [okPatchMesh, dotFor]
      rw [htris, hnorms, if_pos hif, if_pos hif]
      have hteq : ((patchRest m ts.dedup pid ic oc fl).1).triTetN =
          (patchM1 m ts.dedup pid fl).triTetN := by
        simp [patchRest, patchM1]
      have hpeq : ((patchRest m ts.dedup pid ic oc fl).1).pnts = m.pnts := by
        simp [patchRest, patchM1]
      have hqeq : ((patchRest m ts.dedup pid ic oc fl).1).tets = m.tets := by
        simp [patchRest, patchM1]
      rw [hteq, hpeq, hqeq, triBary_swap01, dot3_vneg]
      simp [patchM1]
    · rw [if_neg hif]
      simp only [okPatchMesh, dotFor]
      rw [htris, hnorms, if_neg hif, if_neg hif]
      have hteq : ((patchRest m ts.dedup pid ic oc fl).1).triTetN =
          (patchM1 m ts.dedup pid fl).triTetN := by
        simp [patchRest, patchM1]
      have hpeq : ((patchRest m ts.dedup pid ic oc fl).1).pnts = m.pnts := by
        simp [patchRest, patchM1]
      have hqeq : ((patchRest m ts.dedup pid ic oc fl).1).tets = m.tets := by
        simp [patchRest, patchM1]
      rw [hteq, hpeq, hqeq]
      simp [patchM1]
  rw [hd1]
  by_cases hif : i ∈ patchFlip m ts.dedup pid fl
  · rw [if_pos hif]
    have hlt : dotFor (patchM1 m ts.dedup pid fl) i < 0 := by
      have := (List.mem_filter.mp hif).2
      exact of_decide_eq_true this
    linarith
  · rw [if_neg hif]
    have hnot : ¬(dotFor (patchM1 m ts.dedup pid fl) i < 0) := by
      intro hlt
      apply hif
      refine List.mem_filter.mpr ⟨hi, ?_⟩
      exact decide_eq_true hlt
    linarith [not_lt.mp hnot]

/-- Claim C1: the source's orientation pass contradicts the claimed
invariant.  On the unit tetrahedron with boundary triangle `(0,1,2)`,
compartment 0 and the patch on triangle 0, the whole construction
succeeds, yet the final state satisfies
`dot(innerTetBarycenter - triBarycenter, storedNormal) >= 0` (the code
flips exactly the triangles with a negative dot product, keeping normals
pointing towards the inner tetrahedron), so the claimed strict
`dot < 0` fails.  The last conjunct follows from `patchSpec_dot_nonneg`:
after any successful construction every member dot product is
non-negative. -/
theorem c1_orientation_sign_bug :
    isOkE (mkMesh c1pnts [(0, 1, 2, 3)] (some [(0, 1, 2)]) zeroArea) = true ∧
    isOkE (compInit c1mesh0 [0] 0) = true ∧
    isOkE c1res = true ∧
    ¬(dotFor (okPatchMesh c1res) 0 < 0) := by
  refine ⟨by decide, by decide, by decide, ?_⟩
  have h := patchSpec_dot_nonneg c1mesh1 [0] 0 0 none (by decide) (by decide)
    0 (by decide)
  unfold c1res
  exact not_lt.mpr h

theorem keyIn_append (d1 d2 : List (Key × Int)) (k : Key) :
    keyIn (d1 ++ d2) k = (keyIn d1 k || keyIn d2 k) := by
  simp [keyIn, List.any_append]

theorem keyIn_sdAdd_iff (d : List (Key × Int)) (k : Key) (v : Int) (k2 : Key) :
    keyIn (sdAdd d k v) k2 = true ↔ (keyIn d k2 = true ∨ k2 = k) := by
  unfold sdAdd
  by_cases h : keyIn d k = true
  · rw [if_pos h]
    constructor
    · exact fun hh => Or.inl hh
    · intro hh
      rcases hh with hh | hh
      · exact hh
      · rw [hh]
        exact h
  · rw [if_neg h]
    rw [keyIn_append]
    simp only [Bool.or_eq_true]
    constructor
    · intro hh
      rcases hh with hh | hh
      · exact Or.inl hh
      · refine Or.inr ?_
        simp [keyIn] at hh
        exact hh.symm
    · intro hh
      rcases hh with hh | hh
      · exact Or.inl hh
      · refine Or.inr ?_
        simp [keyIn, hh]

theorem keyIn_sdFold_iff (ps : List (Key × Int)) :
    ∀ (d : List (Key × Int)) (k : Key),
      keyIn (sdFold d ps) k = true ↔
        (keyIn d k = true ∨ k ∈ ps.map Prod.fst) := by
  induction ps with
  | nil =>
    intro d k
    simp [sdFold]
  | cons p ps ih =>
    intro d k
    have hstep : sdFold d (p :: ps) = sdFold (sdAdd d p.1 p.2) ps := rfl
    rw [hstep, ih (sdAdd d p.1 p.2) k]
    rw [keyIn_sdAdd_iff]
    simp [List.mem_cons]
    tauto

theorem nnvals_sdAdd_neg (d : List (Key × Int)) (k : Key) (v : Int)
    (hv : v < 0) : nnvals (sdAdd d k v) = nnvals d := by
  unfold sdAdd
  by_cases h : keyIn d k = true
  · rw [if_pos h]
  · rw [if_neg h]
    unfold nnvals
    rw [List.filterMap_append]
    simp [not_le.mpr hv]

theorem nnvals_sdAdd_nonneg (d : List (Key × Int)) (k : Key) (v : Int)
    (hv : 0 ≤ v) :
    nnvals (sdAdd d k v) =
      nnvals d + (if keyIn d k = true then 0 else 1) := by
  unfold sdAdd
  by_cases h : keyIn d k = true
  · rw [if_pos h, if_pos h]
    omega
  · rw [if_neg h, if_neg h]
    unfold nnvals
    rw [List.filterMap_append]
    simp [hv]

theorem nnvals_sdFold_neg (ps : List (Key × Int)) :
    ∀ (d : List (Key × Int)), (∀ p ∈ ps, p.2 < 0) →
      nnvals (sdFold d ps) = nnvals d := by
  induction ps with
  | nil =>
    intro d _
    rfl
  | cons p ps ih =>
    intro d hps
    have hstep : sdFold d (p :: ps) = sdFold (sdAdd d p.1 p.2) ps := rfl
    rw [hstep, ih _ (fun q hq => hps q (List.mem_cons_of_mem p hq)),
      nnvals_sdAdd_neg d p.1 p.2 (hps p (List.mem_cons_self p ps))]

theorem filter_length_remove (l : List Key) (k : Key) (p q : Key → Bool)
    (hl : l.Nodup) (hk : k ∈ l) (hpk : p k = true) (hqk : q k = false)
    (hagree : ∀ x ∈ l, x ≠ k → q x = p x) :
    (l.filter p).length = 1 + (l.filter q).length := by
  induction l with
  | nil => simp at hk
  | cons a rest ih =>
    have hnd := List.nodup_cons.mp hl
    by_cases hak : a = k
    · subst hak
      rw [List.filter_cons, List.filter_cons]
      have hrq : rest.filter q = rest.filter p := by
        apply List.filter_congr
        intro x hx
        exact hagree x (List.mem_cons_of_mem a hx)
          (fun hh => hnd.1 (hh ▸ hx))
      simp only [hpk, hqk, hrq, if_pos, Bool.false_eq_true, if_false,
        List.length_cons]
      omega
    · have hkrest : k ∈ rest := by
        rcases List.mem_cons.mp hk with h1 | h1
        · exact absurd h1.symm hak
        · exact h1
      have hqa : q a = p a :=
        hagree a (List.mem_cons_self a rest) hak
      have hstep := ih hnd.2 hkrest
        (fun x hx hxk => hagree x (List.mem_cons_of_mem a hx) hxk)
      rw [List.filter_cons, List.filter_cons, hqa]
      by_cases hpa : p a = true
      · simp only [hpa, if_pos]
        simp only [List.length_cons]
        omega
      · simp only [Bool.not_eq_true] at hpa
        simp only [hpa, Bool.false_eq_true, if_false]
        exact hstep

theorem cnt_cons_false (ks : List Key) (k : Key) (p : Key → Bool)
    (hp : p k = false) :
    (((k :: ks).dedup).filter p).length = ((ks.dedup).filter p).length := by
  by_cases hk : k ∈ ks
  · rw [List.dedup_cons_of_mem hk]
  · rw [List.dedup_cons_of_not_mem hk, List.filter_cons]
    simp [hp]

theorem nnvals_sdFold_nonneg (ps : List (Key × Int)) :
    ∀ (d : List (Key × Int)), (∀ p ∈ ps, 0 ≤ p.2) →
      nnvals (sdFold d ps) = nnvals d +
        (((ps.map Prod.fst).dedup).filter (fun k => !(keyIn d k))).length := by
  induction ps with
  | nil =>
    intro d _
    simp [sdFold, nnvals]
  | cons p ps ih =>
    intro d hps
    have hv : 0 ≤ p.2 := hps p (List.mem_cons_self p ps)
    have hstep : sdFold d (p :: ps) = sdFold (sdAdd d p.1 p.2) ps := rfl
    rw [hstep, ih (sdAdd d p.1 p.2)
      (fun q hq => hps q (List.mem_cons_of_mem p hq))]
    rw [nnvals_sdAdd_nonneg d p.1 p.2 hv]
    simp only [List.map_cons]
    by_cases h : keyIn d p.1 = true
    · have hdd : sdAdd d p.1 p.2 = d := by
        unfold sdAdd
        rw [if_pos h]
      rw [hdd, if_pos h]
      have hcnt := cnt_cons_false (ps.map Prod.fst) p.1
        (fun k => !(keyIn d k)) (by simp [h])
      rw [hcnt]
      omega
    · rw [if_neg h]
      have hpk : (fun k => !(keyIn d k)) p.1 = true := by
        simp only [Bool.not_eq_true']
        simpa using h
      have hkk : keyIn (sdAdd d p.1 p.2) p.1 = true :=
        (keyIn_sdAdd_iff d p.1 p.2 p.1).mpr (Or.inr rfl)
      have hqk : (fun k => !(keyIn (sdAdd d p.1 p.2) k)) p.1 = false := by
        simp [hkk]
      have hagree : ∀ x, x ≠ p.1 →
          (fun k => !(keyIn (sdAdd d p.1 p.2) k)) x =
            (fun k => !(keyIn d k)) x := by
        intro x hx
        by_cases hh : keyIn d x = true
        · have h2 := (keyIn_sdAdd_iff d p.1 p.2 x).mpr (Or.inl hh)
          simp [h2, hh]
        · have h2 : ¬ keyIn (sdAdd d p.1 p.2) x = true := by
            intro hc
            rcases (keyIn_sdAdd_iff d p.1 p.2 x).mp hc with hc | hc
            · exact hh hc
            · exact hx hc
          simp only [Bool.not_eq_true] at hh h2
          simp [hh, h2]
      by_cases hmem : p.1 ∈ ps.map Prod.fst
      · rw [List.dedup_cons_of_mem hmem]
        have hrem := filter_length_remove ((ps.map Prod.fst).dedup) p.1
          (fun k => !(keyIn d k)) (fun k => !(keyIn (sdAdd d p.1 p.2) k))
          (List.nodup_dedup _) (List.mem_dedup.mpr hmem) hpk hqk
          (fun x _ hx => hagree x hx)
        omega
      · rw [List.dedup_cons_of_not_mem hmem, List.filter_cons]
        simp only [hpk, if_pos]
        have hcong : ((ps.map Prod.fst).dedup).filter
              (fun k => !(keyIn (sdAdd d p.1 p.2) k)) =
            ((ps.map Prod.fst).dedup).filter (fun k => !(keyIn d k)) := by
          apply List.filter_congr
          intro x hx
          exact hagree x (fun hh => hmem (hh ▸ List.mem_dedup.mp hx))
        rw [hcong]
        simp only [List.length_cons]
        omega

theorem keyIn_nil (k : Key) : keyIn [] k = false := rfl

theorem findUniqueTris_length (old batch : List Tri3) :
    (findUniqueTris old batch).length =
      (((batch.map canonKey).dedup).filter
        (fun k => !(decide (k ∈ old.map canonKey)))).length := by
  simp only [findUniqueTris]
  rw [(isort_perm intLe _).length_eq]
  show nnvals (sdFold
      (sdFold [] ((isort keyLe (old.map canonKey)).map
        (fun k => (k, (-1 : Int)))))
      ((isort keyLe (batch.map canonKey)).enum.map
        (fun p => (p.2, (p.1 : Int))))) = _
  have hneg : ∀ p ∈ (isort keyLe (old.map canonKey)).map
      (fun k => (k, (-1 : Int))), p.2 < 0 := by
    intro p hp
    obtain ⟨k, _, hk⟩ := List.mem_map.mp hp
    rw [← hk]
    show (-1 : Int) < 0
    decide
  have hv : ∀ p ∈ (isort keyLe (batch.map canonKey)).enum.map
      (fun p => (p.2, (p.1 : Int))), 0 ≤ p.2 := by
    intro p hp
    obtain ⟨q, _, hq⟩ := List.mem_map.mp hp
    rw [← hq]
    exact Int.ofNat_nonneg q.1
  rw [nnvals_sdFold_nonneg _ _ hv]
  have h0 : nnvals (sdFold ([] : List (Key × Int))
      ((isort keyLe (old.map canonKey)).map (fun k => (k, (-1 : Int))))) = 0 := by
    rw [nnvals_sdFold_neg _ _ hneg]
    rfl
  rw [h0]
  have hfst : (((isort keyLe (batch.map canonKey)).enum.map
      (fun p => (p.2, (p.1 : Int)))).map Prod.fst) =
      isort keyLe (batch.map canonKey) := by
    rw [List.map_map]
    have hcomp : (Prod.fst ∘ fun p : Nat × Key => (p.2, (p.1 : Int))) =
        Prod.snd := rfl
    rw [hcomp, List.enum_map_snd]
  rw [hfst]
  have hkin : ∀ k, keyIn (sdFold ([] : List (Key × Int))
      ((isort keyLe (old.map canonKey)).map (fun k => (k, (-1 : Int))))) k =
      decide (k ∈ old.map canonKey) := by
    intro k
    have hmemiff : keyIn (sdFold ([] : List (Key × Int))
        ((isort keyLe (old.map canonKey)).map (fun k => (k, (-1 : Int))))) k =
          true ↔ k ∈ old.map canonKey := by
      rw [keyIn_sdFold_iff]
      rw [List.map_map]
      have hcomp : (Prod.fst ∘ fun k : Key => (k, (-1 : Int))) = id := rfl
      rw [hcomp, List.map_id]
      rw [isort_mem]
      simp [keyIn_nil]
    by_cases hm : k ∈ old.map canonKey
    · rw [decide_eq_true hm]
      exact hmemiff.mpr hm
    · rw [decide_eq_false hm]
      cases hb : keyIn (sdFold ([] : List (Key × Int))
          ((isort keyLe (old.map canonKey)).map (fun k => (k, (-1 : Int))))) k
      · rfl
      · exact absurd (hmemiff.mp hb) hm
  have hcong : ((isort keyLe (batch.map canonKey)).dedup).filter
        (fun k => !(keyIn (sdFold ([] : List (Key × Int))
          ((isort keyLe (old.map canonKey)).map
            (fun k => (k, (-1 : Int))))) k)) =
      ((isort keyLe (batch.map canonKey)).dedup).filter
        (fun k => !(decide (k ∈ old.map canonKey))) := by
    apply List.filter_congr
    intro x _
    rw [hkin x]
  rw [hcong]
  have hperm := ((isort_perm keyLe (batch.map canonKey)).dedup).filter
    (fun k => !(decide (k ∈ old.map canonKey)))
  rw [hperm.length_eq]
  omega

theorem findUniqueTris_all_dup (old batch : List Tri3)
    (h : ∀ t ∈ batch, canonKey t ∈ old.map canonKey) :
    findUniqueTris old batch = [] := by
  have hlen := findUniqueTris_length old batch
  have hfil : (((batch.map canonKey).dedup).filter
      (fun k => !(decide (k ∈ old.map canonKey)))) = [] := by
    rw [List.filter_eq_nil_iff]
    intro k hk
    obtain ⟨t, ht, hkt⟩ := List.mem_map.mp (List.mem_dedup.mp hk)
    have := h t ht
    rw [hkt] at this
    simp [this]
  rw [hfil] at hlen
  exact List.length_eq_zero.mp hlen

theorem addTris_all_dup (m : Mesh) (batch : List Tri3) (aF : AreaFn)
    (h : ∀ t ∈ batch, canonKey t ∈ m.tris.map canonKey) :
    addTris m batch aF = .ok m := by
  simp only [addTris]
  rw [findUniqueTris_all_dup m.tris batch h]
  simp

theorem setTetTri_ok_tris (m m2 : Mesh) (idcs : List Nat)
    (h : setTetTriNeighbours m idcs = .ok m2) :
    m2.tris = m.tris ∧ m2.triAreas = m.triAreas ∧
      m2.triNorms = m.triNorms ∧ m2.triPatches = m.triPatches := by
  simp only [setTetTriNeighbours] at h
  cases hc : setTetTriCore m.tets (mkTriDict m.tris idcs)
      ⟨m.tetTriN, m.triTetN⟩ with
  | error e =>
    rw [hc] at h
    simp [Except.map] at h
  | ok st =>
    rw [hc] at h
    simp only [Except.map, Except.ok.injEq] at h
    rw [← h]
    exact ⟨rfl, rfl, rfl, rfl⟩

theorem addTris_ok_tris (m : Mesh) (batch : List Tri3) (aF : AreaFn)
    (m2 : Mesh) (h : addTris m batch aF = .ok m2) :
    m2.tris = m.tris ++ (findUniqueTris m.tris batch).map
      (fun i => batch.getD i.toNat (0, 0, 0)) := by
  simp only [addTris] at h
  by_cases hlen : ((findUniqueTris m.tris batch).map
      (fun i => batch.getD i.toNat (0, 0, 0))).length = 0
  · rw [if_pos hlen] at h
    have hp := List.length_eq_zero.mp hlen
    simp only [Except.ok.injEq] at h
    rw [← h, hp]
    simp
  · rw [if_neg hlen] at h
    split at h
    · simp at h
    · rename_i m3 hs
      simp only [Except.ok.injEq] at h
      rw [← h]
      have := (setTetTri_ok_tris _ _ _ hs).1
      rw [this]

/-- Claim C6, counterexample: on an empty mesh, the batch
`[(1,0,2), (6,7,8), (2,1,0)]` (whose first and third rows share the
canonical key `(0,1,2)`) should, per the claim, keep the first
occurrences in arrival order, i.e. append `[(1,0,2), (6,7,8)]`.  The
code computes the surviving positions `[0, 2]` in the key-sorted batch
but applies them to the arrival-order batch, appending
`[(1,0,2), (2,1,0)]`: two rows with the same canonical key survive and
the unique triangle `(6,7,8)` is dropped. -/
theorem c6_first_occurrence_counterexample :
    findUniqueTris [] [(1, 0, 2), (6, 7, 8), (2, 1, 0)] = [0, 2] ∧
    okTris (mkMesh (List.replicate 9 ((0 : ℚ), (0 : ℚ), (0 : ℚ))) []
        (some [(1, 0, 2), (6, 7, 8), (2, 1, 0)]) zeroArea) =
      [(1, 0, 2), (2, 1, 0)] ∧
    canonKey (2, 1, 0) = canonKey (1, 0, 2) ∧
    ¬((6, 7, 8) ∈ okTris (mkMesh (List.replicate 9 ((0 : ℚ), (0 : ℚ), (0 : ℚ)))
        [] (some [(1, 0, 2), (6, 7, 8), (2, 1, 0)]) zeroArea)) := by
  refine ⟨by decide, by decide, by decide, by decide⟩

/-- Claim C6, amended: on a successful `addTris`, the buffer is
append-only (existing triangles and their indices are untouched), the
appended rows are the batch rows located at the surviving positions
`findUniqueTris` computes (positions of first key occurrences in the
key-sorted batch, applied to the arrival-order batch, so they are not in
general the arrival-order first occurrences, may repeat a canonical key
and may omit one), and the number of appended rows equals the number of
distinct canonical batch keys not already present in the mesh. -/
theorem c6_dedup_amended (m : Mesh) (batch : List Tri3) (aF : AreaFn)
    (h : isOkE (addTris m batch aF) = true) :
    okTris (addTris m batch aF) = m.tris ++ (findUniqueTris m.tris batch).map
      (fun i => batch.getD i.toNat (0, 0, 0)) ∧
    (findUniqueTris m.tris batch).length =
      (((batch.map canonKey).dedup).filter
        (fun k => !(decide (k ∈ m.tris.map canonKey)))).length := by
  refine ⟨?_, findUniqueTris_length m.tris batch⟩
  cases hc : addTris m batch aF with
  | error e =>
    rw [hc] at h
    simp [isOkE] at h
  | ok m2 =>
    show m2.tris = _
    exact addTris_ok_tris m batch aF m2 hc

theorem c6_dedup_amended_witness :
    isOkE (addTris c6wmesh [(2, 1, 0), (3, 4, 5)] zeroArea) = true ∧
    okTris (addTris c6wmesh [(2, 1, 0), (3, 4, 5)] zeroArea) =
      c6wmesh.tris ++ (findUniqueTris c6wmesh.tris [(2, 1, 0), (3, 4, 5)]).map
        (fun i => ([(2, 1, 0), (3, 4, 5)] : List Tri3).getD i.toNat (0, 0, 0)) ∧
    (findUniqueTris c6wmesh.tris [(2, 1, 0), (3, 4, 5)]).length =
      ((([(2, 1, 0), (3, 4, 5)] : List Tri3).map canonKey).dedup.filter
        (fun k => !(decide (k ∈ c6wmesh.tris.map canonKey)))).length := by
  have h2 := c6_dedup_amended c6wmesh [(2, 1, 0), (3, 4, 5)] zeroArea (by decide)
  exact ⟨by decide, h2.1, h2.2⟩

/-- Claim C7: registration is idempotent for a triangle whose canonical
key is already present in the mesh: the call returns the mesh unchanged
(same triangle count, same rows, areas, normals, neighbour pairs and
patch table). -/
theorem c7_addTris_idempotent (m : Mesh) (t : Tri3) (aF : AreaFn)
    (h : canonKey t ∈ m.tris.map canonKey) :
    addTris m [t] aF = .ok m :=
  addTris_all_dup m [t] aF
    (fun _ hx => (List.mem_singleton.mp hx) ▸ h)

theorem c7_addTris_idempotent_witness :
    canonKey (2, 1, 0) ∈ c7wmesh.tris.map canonKey ∧
    addTris c7wmesh [(2, 1, 0)] zeroArea = .ok c7wmesh :=
  ⟨by decide, c7_addTris_idempotent c7wmesh (2, 1, 0) zeroArea (by decide)⟩

/-- Claim C10: when every batch triangle's canonical key is already
present in the mesh, nothing survives deduplication and `addTris`
returns before any mutation: the result is the input mesh itself, so
the triangle buffer, the area and normal tables, the tet-tri and
tri-tet neighbour tables and the patch table are all exactly as they
were. -/
theorem c10_addTris_all_duplicates_frame (m : Mesh) (batch : List Tri3)
    (aF : AreaFn) (h : ∀ t ∈ batch, canonKey t ∈ m.tris.map canonKey) :
    addTris m batch aF = .ok m :=
  addTris_all_dup m batch aF h

theorem c10_addTris_all_duplicates_frame_witness :
    addTris c10wmesh [(2, 1, 0), (5, 3, 4), (0, 1, 2)] zeroArea =
      .ok c10wmesh :=
  c10_addTris_all_duplicates_frame c10wmesh [(2, 1, 0), (5, 3, 4), (0, 1, 2)]
    zeroArea (by decide)

theorem exc_bind_ok {ε α β : Type} (a : α) (f : α → Except ε β) :
    (Except.ok a : Except ε α) >>= f = f a := rfl

theorem exc_bind_err {ε α β : Type} (e : ε) (f : α → Except ε β) :
    (Except.error e : Except ε α) >>= f = .error e := rfl

theorem occ2_le_two (p : Int × Int) : occ2 p ≤ 2 := by
  unfold occ2
  split_ifs <;> omega

theorem range_getD (n i : Nat) (h : i < n) : (List.range n).getD i 0 = i := by
  rw [List.getD_eq_getElem?_getD, List.getElem?_range h]
  rfl

theorem map_range_getD {α : Type} (f : Nat → α) (n i : Nat) (d : α)
    (h : i < n) : ((List.range n).map f).getD i d = f i := by
  rw [List.getD_eq_getElem?_getD, List.getElem?_map, List.getElem?_range h]
  rfl

theorem dict_fold_mem (tris : List Tri3) (l : List Nat) :
    ∀ (f0 : Key → Option Nat) (S : List Nat),
      (∀ k v, f0 k = some v → v ∈ S) → (∀ i ∈ l, i ∈ S) →
      ∀ k v,
        (l.foldl
          (fun f i => fun q =>
            if q = canonKey (tris.getD i (0, 0, 0)) then some i else f q)
          f0) k = some v → v ∈ S := by
  induction l with
  | nil =>
    intro f0 S h0 _ k v hv
    exact h0 k v hv
  | cons i l ih =>
    intro f0 S h0 hl k v hv
    refine ih _ S ?_ (fun x hx => hl x (List.mem_cons_of_mem i hx)) k v hv
    intro k2 v2 hk2
    by_cases hq : k2 = canonKey (tris.getD i (0, 0, 0))
    · have hk3 : i = v2 := by simpa [hq] using hk2
      rw [← hk3]
      exact hl i (List.mem_cons_self i l)
    · have hk3 : f0 k2 = some v2 := by
        have hb : (if k2 = canonKey (tris.getD i (0, 0, 0)) then some i
            else f0 k2) = some v2 := hk2
        rwa [if_neg hq] at hb
      exact h0 k2 v2 hk3

theorem mkTriDict_mem (tris : List Tri3) (idcs : List Nat) (k : Key) (v : Nat)
    (h : mkTriDict tris idcs k = some v) : v ∈ idcs :=
  dict_fold_mem tris idcs (fun _ => none) idcs (fun _ _ hh => by simp at hh)
    (fun _ hi => hi) k v h

theorem probeStep_aligned_none (d : Key → Option Nat) (slot : Nat)
    (tets : List Tet4) (st : NSt) (ii : Nat) (hii : ii < tets.length)
    (hdk : d (faceKey (tets.getD ii (0, 0, 0, 0)) slot) = none) :
    probeStep d slot (List.range tets.length)
      ((List.range tets.length).map
        (fun t => faceKey (tets.getD t (0, 0, 0, 0)) slot)) st ii = .ok st := by
  simp only [probeStep]
  rw [range_getD tets.length ii hii]
  rw [List.length_map, List.length_range]
  rw [if_pos hii]
  rw [map_range_getD _ _ _ _ hii, hdk]

theorem probeStep_aligned_some (d : Key → Option Nat) (slot : Nat)
    (tets : List Tet4) (st : NSt) (ii tridx : Nat) (hii : ii < tets.length)
    (hdk : d (faceKey (tets.getD ii (0, 0, 0, 0)) slot) = some tridx) :
    probeStep d slot (List.range tets.length)
      ((List.range tets.length).map
        (fun t => faceKey (tets.getD t (0, 0, 0, 0)) slot)) st ii =
      linkStep st slot ii tridx := by
  simp only [probeStep]
  rw [range_getD tets.length ii hii]
  rw [List.length_map, List.length_range]
  rw [if_pos hii]
  rw [map_range_getD _ _ _ _ hii, hdk]

theorem linkStep_occ (st : NSt) (slot teidx tridx : Nat) (L : Nat)
    (hlen : st.triTetN.length = L) (htL : tridx < L) (j : Nat) (hjL : j < L) :
    (∃ st2, linkStep st slot teidx tridx = .ok st2 ∧
        st2.triTetN.length = L ∧
        (∀ t k, k ≠ slot → st2.tetTriN t k = st.tetTriN t k) ∧
        occJ j st2 = occJ j st + (if tridx = j then 1 else 0)) ∨
      linkStep st slot teidx tridx = .error .topologyError := by
  unfold linkStep
  rw [if_pos (show tridx < st.triTetN.length by omega)]
  by_cases hp1 : (st.triTetN.getD tridx (-1, -1)).1 = -1
  · left
    rw [if_pos hp1]
    refine ⟨_, rfl, by simp [hlen], ?_, ?_⟩
    · intro t k hk
      exact tset_ne _ _ _ _ _ _ (fun hh => hk hh.2)
    · unfold occJ
      by_cases htj : tridx = j
      · subst htj
        rw [getD_set_self _ _ _ _ (by omega)]
        rw [if_pos rfl]
        unfold occ2
        rw [hp1]
        have hne : ((teidx : Int)) ≠ -1 := by omega
        rw [if_neg hne]
        split_ifs <;> omega
      · rw [getD_set_ne _ _ _ _ _ htj]
        rw [if_neg htj]
        omega
  · by_cases hp2 : (st.triTetN.getD tridx (-1, -1)).2 = -1
    · left
      rw [if_neg hp1, if_pos hp2]
      refine ⟨_, rfl, by simp [hlen], ?_, ?_⟩
      · intro t k hk
        exact tset_ne _ _ _ _ _ _ (fun hh => hk hh.2)
      · unfold occJ
        by_cases htj : tridx = j
        · subst htj
          rw [getD_set_self _ _ _ _ (by omega)]
          rw [if_pos rfl]
          unfold occ2
          rw [hp2]
          have hne : ((teidx : Int)) ≠ -1 := by omega
          rw [if_neg hne]
          split_ifs <;> omega
        · rw [getD_set_ne _ _ _ _ _ htj]
          rw [if_neg htj]
          omega
    · right
      rw [if_neg hp1, if_neg hp2]

theorem probe_fold (d : Key → Option Nat) (slot : Nat) (tets : List Tet4)
    (L : Nat) (hd : ∀ k v, d k = some v → v < L) (j : Nat) (hjL : j < L) :
    ∀ (l : List Nat) (st : NSt),
      st.triTetN.length = L →
      (∀ ii ∈ l, ii < tets.length) →
      ((∃ st2,
          l.foldlM (probeStep d slot (List.range tets.length)
            ((List.range tets.length).map
              (fun t => faceKey (tets.getD t (0, 0, 0, 0)) slot))) st =
            .ok st2 ∧
          st2.triTetN.length = L ∧
          (∀ t k, k ≠ slot → st2.tetTriN t k = st.tetTriN t k) ∧
          occJ j st2 = occJ j st +
            l.countP (fun ii =>
              decide (d (faceKey (tets.getD ii (0, 0, 0, 0)) slot)
                = some j))) ∨
        l.foldlM (probeStep d slot (List.range tets.length)
          ((List.range tets.length).map
            (fun t => faceKey (tets.getD t (0, 0, 0, 0)) slot))) st =
          .error .topologyError) := by
  intro l
  induction l with
  | nil =>
    intro st hlen _
    left
    exact ⟨st, rfl, hlen, fun _ _ _ => rfl, by simp⟩
  | cons ii l ih =>
    intro st hlen hmem
    have hii : ii < tets.length := hmem ii (List.mem_cons_self ii l)
    rw [List.foldlM_cons]
    cases hdk : d (faceKey (tets.getD ii (0, 0, 0, 0)) slot) with
    | none =>
      rw [probeStep_aligned_none d slot tets st ii hii hdk, exc_bind_ok]
      rcases ih st hlen (fun x hx => hmem x (List.mem_cons_of_mem ii hx)) with
        ⟨st2, hfold, hlen2, hfr2, hocc2⟩ | herr
      · left
        refine ⟨st2, hfold, hlen2, hfr2, ?_⟩
        rw [hocc2, List.countP_cons]
        have hfalse : (decide (d (faceKey (tets.getD ii (0, 0, 0, 0)) slot)
            = some j)) = false := by
          apply decide_eq_false
          rw [hdk]
          simp
        rw [hfalse]
        simp
      · right
        exact herr
    | some tridx =>
      rw [probeStep_aligned_some d slot tets st ii tridx hii hdk]
      have htL : tridx < L := hd _ _ hdk
      rcases linkStep_occ st slot ii tridx L hlen htL j hjL with
        ⟨st1, hstep, hlen1, hfr1, hocc1⟩ | herr
      · rw [hstep, exc_bind_ok]
        rcases ih st1 hlen1
            (fun x hx => hmem x (List.mem_cons_of_mem ii hx)) with
          ⟨st2, hfold, hlen2, hfr2, hocc2⟩ | herr2
        · left
          refine ⟨st2, hfold, hlen2, ?_, ?_⟩
          · intro t k hk
            rw [hfr2 t k hk, hfr1 t k hk]
          · have hcp : List.countP (fun x =>
                decide (d (faceKey (tets.getD x (0, 0, 0, 0)) slot) = some j))
                  (ii :: l) =
                List.countP (fun x =>
                  decide (d (faceKey (tets.getD x (0, 0, 0, 0)) slot)
                    = some j)) l + (if tridx = j then 1 else 0) := by
              rw [List.countP_cons]
              have hdk2 := hdk
              simp only [List.getD_eq_getElem?_getD, Prod.mk_zero_zero] at hdk2
              by_cases htj : tridx = j
              · subst htj
                simp [hdk2]
              · simp [hdk2, htj]
            rw [hocc2, hocc1, hcp]
            omega
        · right
          exact herr2
      · rw [herr, exc_bind_err]
        right
        rfl

theorem triPass_aligned (tets : List Tet4) (d : Key → Option Nat) (slot : Nat)
    (L : Nat) (hd : ∀ k v, d k = some v → v < L) (j : Nat) (hjL : j < L)
    (st : NSt) (hlen : st.triTetN.length = L)
    (hcol : ∀ t, t < tets.length → st.tetTriN t slot = -1) :
    (∃ st2, triPass tets d slot st = .ok st2 ∧ st2.triTetN.length = L ∧
        (∀ t k, k ≠ slot → st2.tetTriN t k = st.tetTriN t k) ∧
        occJ j st2 = occJ j st + slotHits tets d j slot) ∨
      triPass tets d slot st = .error .topologyError := by
  have hunr : (List.range tets.length).filter
      (fun x => decide (st.tetTriN x slot = -1)) = List.range tets.length := by
    apply List.filter_eq_self.mpr
    intro a ha
    exact decide_eq_true (hcol a (List.mem_range.mp ha))
  simp only [triPass]
  rw [hunr, List.length_range]
  have := probe_fold d slot tets L hd j hjL (List.range tets.length) st hlen
    (fun ii hii => List.mem_range.mp hii)
  rcases this with ⟨st2, hfold, hlen2, hfr2, hocc2⟩ | herr
  · left
    exact ⟨st2, hfold, hlen2, hfr2, hocc2⟩
  · right
    exact herr

theorem setTetTriCore_third_link (tets : List Tet4) (d : Key → Option Nat)
    (st0 : NSt) (L : Nat) (hd : ∀ k v, d k = some v → v < L)
    (hfresh : ∀ t k, st0.tetTriN t k = -1)
    (hlen : st0.triTetN.length = L) (j : Nat) (hjL : j < L)
    (hocc : st0.triTetN.getD j (-1, -1) = (-1, -1))
    (hcnt : 3 ≤ matchCount tets d j) :
    setTetTriCore tets d st0 = .error .topologyError := by
  have hocc0 : occJ j st0 = 0 := by
    unfold occJ
    rw [hocc]
    rfl
  unfold setTetTriCore
  rcases triPass_aligned tets d 0 L hd j hjL st0 hlen
      (fun t _ => hfresh t 0) with ⟨st1, h1, hlen1, hfr1, hoc1⟩ | herr
  swap
  · rw [herr]
  rw [h1]
  show coreStage1 tets d st1 = .error .topologyError
  unfold coreStage1
  rcases triPass_aligned tets d 1 L hd j hjL st1 hlen1
      (fun t _ => by rw [hfr1 t 1 (by decide)]; exact hfresh t 1) with
    ⟨st2, h2, hlen2, hfr2, hoc2⟩ | herr
  swap
  · rw [herr]
  rw [h2]
  show coreStage2 tets d st2 = .error .topologyError
  unfold coreStage2
  rcases triPass_aligned tets d 2 L hd j hjL st2 hlen2
      (fun t _ => by
        rw [hfr2 t 2 (by decide), hfr1 t 2 (by decide)]
        exact hfresh t 2) with ⟨st3, h3, hlen3, hfr3, hoc3⟩ | herr
  swap
  · rw [herr]
  rw [h3]
  show coreStage3 tets d st3 = .error .topologyError
  unfold coreStage3
  rcases triPass_aligned tets d 3 L hd j hjL st3 hlen3
      (fun t _ => by
        rw [hfr3 t 3 (by decide), hfr2 t 3 (by decide), hfr1 t 3 (by decide)]
        exact hfresh t 3) with ⟨st4, h4, hlen4, hfr4, hoc4⟩ | herr
  swap
  · exact herr
  exfalso
  have hbound := occ2_le_two (st4.triTetN.getD j (-1, -1))
  have : occJ j st4 =
      slotHits tets d j 0 + slotHits tets d j 1 + slotHits tets d j 2 +
        slotHits tets d j 3 := by
    rw [hoc4, hoc3, hoc2, hoc1, hocc0]
    omega
  unfold occJ at this
  unfold matchCount at hcnt
  omega

/-- Claim C8: during tet-tri neighbour resolution, a triangle matched by
three or more tetrahedron faces causes the call to raise the topology
error (the source's `assert False` on a third reverse link).  The
hypotheses fix the first-resolution setting `addTris` creates: all
tetrahedron face slots unresolved, the triangle's neighbour pair fresh,
and every dictionary value a valid triangle row. -/
theorem c8_third_link_topology_error (m : Mesh) (idcs : List Nat)
    (hfresh : ∀ t k, m.tetTriN t k = -1)
    (hidx : ∀ i ∈ idcs, i < m.triTetN.length)
    (j : Nat) (hjL : j < m.triTetN.length)
    (hocc : m.triTetN.getD j (-1, -1) = (-1, -1))
    (hcnt : 3 ≤ matchCount m.tets (mkTriDict m.tris idcs) j) :
    setTetTriNeighbours m idcs = .error .topologyError := by
  have hd : ∀ k v, mkTriDict m.tris idcs k = some v → v < m.triTetN.length :=
    fun k v hv => hidx v (mkTriDict_mem m.tris idcs k v hv)
  have hcore := setTetTriCore_third_link m.tets (mkTriDict m.tris idcs)
    ⟨m.tetTriN, m.triTetN⟩ m.triTetN.length hd hfresh rfl j hjL hocc hcnt
  simp only [setTetTriNeighbours]
  rw [hcore]
  rfl

theorem c8_third_link_topology_error_witness :
    setTetTriNeighbours c8wmesh [0] = .error .topologyError :=
  c8_third_link_topology_error c8wmesh [0] (fun _ _ => rfl) (by decide) 0
    (by decide) (by decide) (by decide)
